import Mathlib

/-!
Verification of the NearYou streaming-advertising pipeline against its
natural-language specification.

The Python sources are shallowly embedded:
* Python strings are modelled as `List Char` (`PyStr`); helper functions
  mirror `str.lower`, `str.strip`, `str.split`, `",".join`, `sorted`.
* `time.time()` instants and TTLs are exact rationals / integers.
* Machine-level hashing (`hashlib.md5`) is implemented bit-faithfully over
  byte lists, with 32-bit words represented as `Nat` reduced mod 2^32.
* Fallible I/O (Redis client, LLM call, HTTP) is modelled with explicit
  outcome parameters (`Except` / `Option`) threaded through the functions.
-/

namespace NearYou

/-- Python strings, modelled as their list of characters. -/
abbrev PyStr := List Char

/-- Lowercasing of one character as Python `str.lower` acts on the
character classes appearing in this code base: ASCII letters and the
Latin-1 supplement uppercase letters map down by 0x20, everything else
is unchanged. -/
def pyLowerChar (c : Char) : Char :=
  if 65 ≤ c.toNat ∧ c.toNat ≤ 90 then Char.ofNat (c.toNat + 32)
  else if 192 ≤ c.toNat ∧ c.toNat ≤ 222 ∧ c.toNat ≠ 215 then Char.ofNat (c.toNat + 32)
  else c

/-- Python `str.lower`. -/
def pyLower (s : PyStr) : PyStr := s.map pyLowerChar

/-- The whitespace characters stripped by Python `str.strip`
(the ASCII ones; the sources only ever strip around plain words). -/
def isPySpace (c : Char) : Bool :=
  c = ' ' || c = '\t' || c = '\n' || c = '\r' || c = '\x0b' || c = '\x0c'

/-- Python `str.strip`: drop leading and trailing whitespace. -/
def pyStrip (s : PyStr) : PyStr :=
  ((s.dropWhile isPySpace).reverse.dropWhile isPySpace).reverse

/-- Python `s.split(sep)` for a one-character separator: the list of
chunks between occurrences of `sep` (an empty input yields one empty
chunk, exactly as in Python). -/
def pySplit (sep : Char) : PyStr → List PyStr
  | [] => [[]]
  | c :: rest =>
    let tail := pySplit sep rest
    if c = sep then [] :: tail
    else match tail with
      | [] => [[c]]
      | t :: ts => (c :: t) :: ts

/-- Python `sep.join(parts)` for a one-character separator. -/
def pyJoin (sep : Char) : List PyStr → PyStr
  | [] => []
  | [s] => s
  | s :: rest => s ++ sep :: pyJoin sep rest

/-! ## Association-list primitives for Python dicts keyed by strings -/

/-- Lookup in a Python dict (`d[k]` / `k in d`). -/
def assocGet {β : Type} (l : List (String × β)) (key : String) : Option β :=
  match l with
  | [] => none
  | (k, v) :: rest => if k = key then some v else assocGet rest key

/-- Python dict assignment `d[k] = v`: replace in place or append. -/
def assocSet {β : Type} (l : List (String × β)) (key : String) (v : β) :
    List (String × β) :=
  match l with
  | [] => [(key, v)]
  | (k, w) :: rest =>
    if k = key then (k, v) :: rest else (k, w) :: assocSet rest key v

/-- Python `del d[k]`. -/
def assocDel {β : Type} (l : List (String × β)) (key : String) :
    List (String × β) :=
  match l with
  | [] => []
  | (k, w) :: rest => if k = key then rest else (k, w) :: assocDel rest key

@[simp] theorem assocGet_assocSet_self {β : Type} (l : List (String × β))
    (key : String) (v : β) : assocGet (assocSet l key v) key = some v := by
  induction l with
  | nil => simp [assocSet, assocGet]
  | cons hd tl ih =>
    obtain ⟨k, w⟩ := hd
    by_cases h : k = key <;> simp [assocSet, assocGet, h, ih]

/-! ## `src/src/cache/memory_cache.py` — `MemoryCache`

A cache entry is the pair `(value, expire_time)` stored by `set`;
`time.time()` is passed in explicitly as a rational `now`. -/

/-- One `MemoryCache` entry: `(value, expire_time)`. -/
structure MemEntry (α : Type) where
  value : α
  expire : Option ℚ
  deriving DecidableEq, Repr

/-- The `MemoryCache` object: the backing dict plus `default_ttl`. -/
structure MemoryCache (α : Type) where
  entries : List (String × MemEntry α)
  default_ttl : Int
  deriving DecidableEq, Repr

namespace MemoryCache

/-- `MemoryCache.get(key)` at instant `now`: returns the value and the
possibly-mutated cache (an expired entry is deleted on access). -/
def get {α : Type} (c : MemoryCache α) (key : String) (now : ℚ) :
    Option α × MemoryCache α :=
  match assocGet c.entries key with
  | none => (none, c)
  | some e =>
    match e.expire with
    | some exp =>
      if now > exp then (none, { c with entries := assocDel c.entries key })
      else (some e.value, c)
    | none => (some e.value, c)

/-- `MemoryCache.set(key, value, ttl)` at instant `now`.  A `ttl` of
`none` falls back to `default_ttl`; the expiry stored is `now + ttl`.
Always returns `True`. -/
def set {α : Type} (c : MemoryCache α) (key : String) (v : α)
    (ttl : Option Int) (now : ℚ) : Bool × MemoryCache α :=
  let t : Int := ttl.getD c.default_ttl
  let e : MemEntry α := ⟨v, some (now + (t : ℚ))⟩
  (true, { c with entries := assocSet c.entries key e })

/-- `MemoryCache.delete(key)`. -/
def delete {α : Type} (c : MemoryCache α) (key : String) :
    Bool × MemoryCache α :=
  match assocGet c.entries key with
  | some _ => (true, { c with entries := assocDel c.entries key })
  | none => (false, c)

end MemoryCache

/-! ## UTF-8 encoding (`str.encode()`), over code points -/

/-- UTF-8 bytes of one character. -/
def utf8EncodeChar (c : Char) : List Nat :=
  let n := c.toNat
  if n < 128 then [n]
  else if n < 2048 then [192 + n / 64, 128 + n % 64]
  else if n < 65536 then [224 + n / 4096, 128 + (n / 64) % 64, 128 + n % 64]
  else [240 + n / 262144, 128 + (n / 4096) % 64, 128 + (n / 64) % 64, 128 + n % 64]

/-- UTF-8 bytes of a string (`s.encode()`), as a list of byte values. -/
def utf8Encode (s : PyStr) : List Nat := (s.map utf8EncodeChar).flatten

/-! ## `hashlib.md5`, bit-faithful over byte lists

32-bit words are `Nat`s kept below `2^32`; the compression function is
the RFC 1321 algorithm with the usual constant tables. -/

namespace MD5

/-- `2^32`. -/
def w32 : Nat := 4294967296

/-- 32-bit modular addition. -/
def add32 (a b : Nat) : Nat := (a + b) % w32

/-- 32-bit complement (arguments are maintained below `2^32`). -/
def not32 (a : Nat) : Nat := 4294967295 - a % w32

/-- 32-bit left rotation by `s` (`0 < s < 32` in the table below),
expressed arithmetically: split `x` at bit `32 - s` and swap the parts. -/
def rotl32 (x s : Nat) : Nat :=
  (x % 2 ^ (32 - s)) * 2 ^ s + x / 2 ^ (32 - s)

/-- The 64 sine-derived round constants `K`. -/
def K : List Nat :=
  [0xd76aa478, 0xe8c7b756, 0x242070db, 0xc1bdceee,
   0xf57c0faf, 0x4787c62a, 0xa8304613, 0xfd469501,
   0x698098d8, 0x8b44f7af, 0xffff5bb1, 0x895cd7be,
   0x6b901122, 0xfd987193, 0xa679438e, 0x49b40821,
   0xf61e2562, 0xc040b340, 0x265e5a51, 0xe9b6c7aa,
   0xd62f105d, 0x02441453, 0xd8a1e681, 0xe7d3fbc8,
   0x21e1cde6, 0xc33707d6, 0xf4d50d87, 0x455a14ed,
   0xa9e3e905, 0xfcefa3f8, 0x676f02d9, 0x8d2a4c8a,
   0xfffa3942, 0x8771f681, 0x6d9d6122, 0xfde5380c,
   0xa4beea44, 0x4bdecfa9, 0xf6bb4b60, 0xbebfbc70,
   0x289b7ec6, 0xeaa127fa, 0xd4ef3085, 0x04881d05,
   0xd9d4d039, 0xe6db99e5, 0x1fa27cf8, 0xc4ac5665,
   0xf4292244, 0x432aff97, 0xab9423a7, 0xfc93a039,
   0x655b59c3, 0x8f0ccc92, 0xffeff47d, 0x85845dd1,
   0x6fa87e4f, 0xfe2ce6e0, 0xa3014314, 0x4e0811a1,
   0xf7537e82, 0xbd3af235, 0x2ad7d2bb, 0xeb86d391]

/-- The per-round left-rotation amounts. -/
def S : List Nat :=
  [7, 12, 17, 22, 7, 12, 17, 22, 7, 12, 17, 22, 7, 12, 17, 22,
   5, 9, 14, 20, 5, 9, 14, 20, 5, 9, 14, 20, 5, 9, 14, 20,
   4, 11, 16, 23, 4, 11, 16, 23, 4, 11, 16, 23, 4, 11, 16, 23,
   6, 10, 15, 21, 6, 10, 15, 21, 6, 10, 15, 21, 6, 10, 15, 21]

/-- The nonlinear mixing function and message-word index of round `i`. -/
def mix (i b c d : Nat) : Nat × Nat :=
  if i < 16 then ((b &&& c) ||| (not32 b &&& d), i)
  else if i < 32 then ((d &&& b) ||| (not32 d &&& c), (5 * i + 1) % 16)
  else if i < 48 then (b ^^^ c ^^^ d, (3 * i + 5) % 16)
  else (c ^^^ (b ||| not32 d), (7 * i) % 16)

/-- One of the 64 rounds applied to the state `(a, b, c, d)`. -/
def round (M : List Nat) (st : Nat × Nat × Nat × Nat) (i : Nat) :
    Nat × Nat × Nat × Nat :=
  let (a, b, c, d) := st
  let (f, g) := mix i b c d
  let f := add32 (add32 (add32 f a) (K.getD i 0)) (M.getD g 0)
  (d, add32 b (rotl32 f (S.getD i 0)), b, c)

/-- Process one 16-word block against the running digest. -/
def compress (h : Nat × Nat × Nat × Nat) (M : List Nat) :
    Nat × Nat × Nat × Nat :=
  let (a0, b0, c0, d0) := h
  let (a, b, c, d) := (List.range 64).foldl (round M) (a0, b0, c0, d0)
  (add32 a0 a, add32 b0 b, add32 c0 c, add32 d0 d)

/-- Little-endian 4-byte groups read as 32-bit words. -/
def toWords : List Nat → List Nat
  | a :: b :: c :: d :: rest => (a + 256 * (b + 256 * (c + 256 * d))) :: toWords rest
  | _ => []

/-- A word (or longer value) written as `n` little-endian bytes. -/
def leBytes (v : Nat) : Nat → List Nat
  | 0 => []
  | n + 1 => v % 256 :: leBytes (v / 256) n

/-- RFC 1321 padding: a `0x80` byte, zeros to 56 mod 64, then the
64-bit little-endian bit length. -/
def pad (msg : List Nat) : List Nat :=
  msg ++ 128 :: List.replicate ((119 - msg.length % 64) % 64) 0
      ++ leBytes (msg.length * 8 % 2 ^ 64) 8

/-- Split into 64-byte blocks (structural recursion on a length fuel so
that the definition reduces under `decide`). -/
def chunksAux : Nat → List Nat → List (List Nat)
  | 0, _ => []
  | _, [] => []
  | fuel + 1, l => l.take 64 :: chunksAux fuel (l.drop 64)

/-- Split into 64-byte blocks. -/
def chunks (l : List Nat) : List (List Nat) := chunksAux l.length l

/-- The 16 digest bytes of a byte-list message. -/
def md5Bytes (msg : List Nat) : List Nat :=
  let (a, b, c, d) :=
    (chunks (pad msg)).foldl (fun h blk => compress h (toWords blk))
      (0x67452301, 0xefcdab89, 0x98badcfe, 0x10325476)
  leBytes a 4 ++ leBytes b 4 ++ leBytes c 4 ++ leBytes d 4

/-- One lowercase hex digit. -/
def hexDigit (n : Nat) : Char :=
  if n < 10 then Char.ofNat (48 + n) else Char.ofNat (87 + n)

/-- `hashlib.md5(bytes).hexdigest()`: 32 lowercase hex characters. -/
def hexdigest (msg : List Nat) : PyStr :=
  ((md5Bytes msg).map (fun b => [hexDigit (b / 16), hexDigit (b % 16)])).flatten

end MD5

set_option maxRecDepth 10000 in
/-- Sanity check against the RFC 1321 test vector for the empty input. -/
example : MD5.hexdigest (utf8Encode "".data) =
    "d41d8cd98f00b204e9800998ecf8427e".data := by decide

set_option maxRecDepth 10000 in
/-- Sanity check against the RFC 1321 test vector for `abc`. -/
example : MD5.hexdigest (utf8Encode "abc".data) =
    "900150983cd24fb0d6963f7d28e17f72".data := by decide

/-! ## `src/services/message_generator/cache_utils.py`

`user_params` / `poi_params` dicts carry the fields the code reads
(`age`, `profession`, `interests`; `name`, `category`, `description`).
`age` is a Python `int`, so it is modelled as `Int` and `//` as
floor division. -/

/-- The `user` part of a `/generate` request. -/
structure UserParams where
  age : Int
  profession : PyStr
  interests : PyStr
  deriving DecidableEq, Repr

/-- The `poi` part of a `/generate` request. -/
structure PoiParams where
  name : PyStr
  category : PyStr
  description : PyStr
  deriving DecidableEq, Repr

/-- The 5-year age bucket rendered as in
`f"{(age // 5) * 5}-{((age // 5) * 5) + 4}"`. -/
def ageRange (age : Int) : PyStr :=
  (toString (age.fdiv 5 * 5)).data ++ '-' :: (toString (age.fdiv 5 * 5 + 4)).data

/-- `sorted` on Python strings: the unique ascending reordering under
the code-point lexicographic order. -/
def pySorted (l : List PyStr) : List PyStr := List.insertionSort (· ≤ ·) l

/-- The interests normalisation of `generate_cache_key`:
`sorted([i.strip().lower() for i in interests.split(",") if i.strip()])`
joined with `","`. -/
def normalizedInterests (interests : PyStr) : PyStr :=
  pyJoin ','
    (pySorted (((pySplit ',' interests).filter (fun i => pyStrip i ≠ [])).map
      (fun i => pyLower (pyStrip i))))

/-- The combined string hashed by `generate_cache_key`:
`f"{age_range}:{profession}:{normalized_interests}:{poi_name}:{poi_category}"`. -/
def combinedKeyString (u : UserParams) (p : PoiParams) : PyStr :=
  ageRange u.age ++ ':' :: pyLower u.profession ++ ':' :: normalizedInterests u.interests
    ++ ':' :: pyLower p.name ++ ':' :: pyLower p.category

/-- `generate_cache_key(user_params, poi_params)`: the MD5 hex digest of
the UTF-8 bytes of the combined string. -/
def generate_cache_key (u : UserParams) (p : PoiParams) : PyStr :=
  MD5.hexdigest (utf8Encode (combinedKeyString u p))

/-- The fingerprint as the specification words it (§4.3): bucket the age
to its 5-year range, lowercase the profession, split the interests on
commas, trim, lowercase, drop empties, sort ascending and rejoin with
commas, lowercase the POI name and category, concatenate the five
fields with `:` and take the MD5 hex digest of the UTF-8 bytes.  Kept
separate from `generate_cache_key` so the two can be compared. -/
def specFingerprint (u : UserParams) (p : PoiParams) : PyStr :=
  MD5.hexdigest (utf8Encode
    ((toString (u.age.fdiv 5 * 5)).data ++ '-' :: (toString (u.age.fdiv 5 * 5 + 4)).data
      ++ ':' :: pyLower u.profession
      ++ ':' :: pyJoin ','
        (pySorted ((((pySplit ',' u.interests).map pyStrip).map pyLower).filter
          (fun i => i ≠ [])))
      ++ ':' :: pyLower p.name ++ ':' :: pyLower p.category))

/-- The module-level cache state of `cache_utils.py`: the in-process
backend the module fell back to, the `CACHE_ENABLED` flag, the
configured `CACHE_TTL`, and the `cache_stats` counters. -/
structure CacheUtilsState where
  backend : MemoryCache String
  enabled : Bool
  cache_ttl : Int
  hits : Nat
  misses : Nat
  total : Nat
  deriving DecidableEq, Repr

/-- The fingerprint as a backend key. -/
def fingerprintKey (u : UserParams) (p : PoiParams) : String :=
  ⟨generate_cache_key u p⟩

/-- `get_cached_message(user_params, poi_params)` at instant `now`.
Returns the raw cached value (`None` → `none`) and the updated module
state; the statistics count a hit exactly when the value is truthy. -/
def get_cached_message (st : CacheUtilsState) (u : UserParams) (p : PoiParams)
    (now : ℚ) : Option String × CacheUtilsState :=
  if st.enabled = false then (none, st)
  else
    let key := fingerprintKey u p
    let res := st.backend.get key now
    let st := { st with backend := res.2, total := st.total + 1 }
    match res.1 with
    | some s =>
      if s ≠ "" then (some s, { st with hits := st.hits + 1 })
      else (some s, { st with misses := st.misses + 1 })
    | none => (none, { st with misses := st.misses + 1 })

/-- The `popular_categories` list of `cache_message`. -/
def popularCategories : List PyStr :=
  ["ristorante".data, "bar".data, "abbigliamento".data, "supermercato".data]

/-- The adaptive TTL computed by `cache_message`: double the base TTL
for a popular category, the base TTL otherwise. -/
def adaptiveTtl (base : Int) (category : PyStr) : Int :=
  if pyLower category ∈ popularCategories then base * 2 else base

/-- `cache_message(user_params, poi_params, message)` at instant `now`:
store under the fingerprint with the adaptive TTL. -/
def cache_message (st : CacheUtilsState) (u : UserParams) (p : PoiParams)
    (message : String) (now : ℚ) : Bool × CacheUtilsState :=
  if st.enabled = false then (false, st)
  else
    let key := fingerprintKey u p
    let ttl := adaptiveTtl st.cache_ttl p.category
    let res := st.backend.set key message (some ttl) now
    (res.1, { st with backend := res.2 })

/-- The `hit_rate` reported by `get_cache_stats`:
`hits / total` when `total > 0`, else `0`. -/
def statsHitRate (st : CacheUtilsState) : ℚ :=
  if st.total > 0 then (st.hits : ℚ) / (st.total : ℚ) else 0

/-! ## `src/services/message_generator/services/generator_service.py` -/

/-- `_get_fallback_message(shop_name, category)`: the fixed
category-keyed table of fallback templates, with the generic default. -/
def fallbackMessage (shop_name category : PyStr) : PyStr :=
  if pyLower category = "ristorante".data then
    "Sei vicino a ".data ++ shop_name ++ "! Un ottimo posto per una pausa pranzo gustosa.".data
  else if pyLower category = "bar".data then
    shop_name ++ " è a pochi passi! Che ne dici di un ottimo caffè?".data
  else if pyLower category = "abbigliamento".data then
    "Dai un'occhiata alle offerte di ".data ++ shop_name ++ " proprio qui vicino!".data
  else if pyLower category = "supermercato".data then
    shop_name ++ " è qui vicino, perfetto per fare la spesa velocemente.".data
  else
    "Sei vicino a ".data ++ shop_name ++ "! Fermati a dare un'occhiata.".data

/-- `_call_llm`: the LLM call outcome is passed in explicitly; the
`except` branch returns the fallback for `poi.get("name", "negozio")`
and the category instead of raising. -/
def callLlm (llm : Except Unit PyStr) (p : PoiParams) : PyStr :=
  match llm with
  | .ok content => pyStrip content
  | .error _ => fallbackMessage p.name p.category

/-- `MessageGeneratorService.generate_message`: probe the cache, else
call the LLM (with its internal fallback) and cache the result
unconditionally.  Returns `(message, cached)` plus the module state. -/
def generate_message (st : CacheUtilsState) (u : UserParams) (p : PoiParams)
    (llm : Except Unit PyStr) (now : ℚ) : (String × Bool) × CacheUtilsState :=
  let probe := get_cached_message st u p now
  match probe.1 with
  | some s =>
    if s ≠ "" then ((s, true), probe.2)
    else
      let generated : String := ⟨callLlm llm p⟩
      let store := cache_message probe.2 u p generated now
      ((generated, false), store.2)
  | none =>
    let generated : String := ⟨callLlm llm p⟩
    let store := cache_message probe.2 u p generated now
    ((generated, false), store.2)

/-! ## Claim theorems -/

/-- C8: for the in-process cache, for every key `k`, value `v` and
positive `ttl`, after `set(k, v, ttl)` at time `t₀` (with no intervening
operation on `k`), `get(k)` at any time up to `t₀ + ttl` returns `v`,
and `get(k)` at any time strictly after `t₀ + ttl` returns none. -/
theorem C8_memory_cache_roundtrip {α : Type} (c : MemoryCache α) (key : String)
    (v : α) (ttl : Int) (t0 t : ℚ) (hpos : 0 < ttl) :
    (t ≤ t0 + (ttl : ℚ) →
      (((c.set key v (some ttl) t0).2).get key t).1 = some v) ∧
    (t0 + (ttl : ℚ) < t →
      (((c.set key v (some ttl) t0).2).get key t).1 = none) := by
  have _ := hpos
  constructor <;> intro ht
  · simp only [MemoryCache.set, MemoryCache.get, Option.getD_some,
      assocGet_assocSet_self, gt_iff_lt]
    rw [if_neg (not_lt.mpr ht)]
  · simp only [MemoryCache.set, MemoryCache.get, Option.getD_some,
      assocGet_assocSet_self, gt_iff_lt]
    rw [if_pos ht]

/-- Witness for C8 at a concrete instance: key `"k"`, value `"v"`,
`ttl = 10`, written at time `0`, read at times `5` and `11`. -/
theorem C8_memory_cache_roundtrip_witness :
    ((((MemoryCache.mk [] 86400 : MemoryCache String).set "k" "v" (some 10) 0).2.get
        "k" 5).1 = some "v") ∧
    ((((MemoryCache.mk [] 86400 : MemoryCache String).set "k" "v" (some 10) 0).2.get
        "k" 11).1 = none) :=
  ⟨(C8_memory_cache_roundtrip ⟨[], 86400⟩ "k" "v" 10 0 5 (by norm_num)).1 (by norm_num),
   (C8_memory_cache_roundtrip ⟨[], 86400⟩ "k" "v" 10 0 11 (by norm_num)).2 (by norm_num)⟩

/-- C7: `cache_message` writes the entry under the request fingerprint
with TTL `2 ×` the configured base TTL exactly for the popular
categories (`ristorante`, `bar`, `abbigliamento`, `supermercato`,
case-insensitively) and `1 ×` the base TTL for every other category. -/
theorem C7_adaptive_ttl (st : CacheUtilsState) (u : UserParams) (p : PoiParams)
    (msg : String) (now : ℚ) (hen : st.enabled = true) :
    assocGet ((cache_message st u p msg now).2.backend.entries) (fingerprintKey u p)
      = some ⟨msg, some (now + (adaptiveTtl st.cache_ttl p.category : ℚ))⟩ ∧
    (pyLower p.category ∈ popularCategories →
      adaptiveTtl st.cache_ttl p.category = 2 * st.cache_ttl) ∧
    (pyLower p.category ∉ popularCategories →
      adaptiveTtl st.cache_ttl p.category = st.cache_ttl) := by
  refine ⟨?_, fun hpop => ?_, fun hnot => ?_⟩
  · simp [cache_message, hen, MemoryCache.set, assocGet_assocSet_self]
  · simp [adaptiveTtl, hpop, mul_comm]
  · simp [adaptiveTtl, hnot]

/-- Witness for C7: a store under category `bar` gets twice the base
TTL of 86400, one under category `libreria` gets the base TTL. -/
theorem C7_adaptive_ttl_witness :
    assocGet ((cache_message (CacheUtilsState.mk ⟨[], 86400⟩ true 86400 0 0 0)
        ⟨30, "Ingegnere".data, "tecnologia".data⟩
        ⟨"Caffè X".data, "bar".data, "".data⟩ "ciao" 0).2.backend.entries)
      (fingerprintKey ⟨30, "Ingegnere".data, "tecnologia".data⟩
        ⟨"Caffè X".data, "bar".data, "".data⟩)
      = some ⟨"ciao", some ((0 : ℚ) + ((adaptiveTtl 86400 "bar".data : Int) : ℚ))⟩ ∧
    adaptiveTtl 86400 "bar".data = 2 * 86400 ∧
    adaptiveTtl 86400 "libreria".data = 86400 :=
  ⟨(C7_adaptive_ttl ⟨⟨[], 86400⟩, true, 86400, 0, 0, 0⟩
      ⟨30, "Ingegnere".data, "tecnologia".data⟩
      ⟨"Caffè X".data, "bar".data, "".data⟩ "ciao" 0 rfl).1,
   (C7_adaptive_ttl ⟨⟨[], 86400⟩, true, 86400, 0, 0, 0⟩
      ⟨30, "Ingegnere".data, "tecnologia".data⟩
      ⟨"Caffè X".data, "bar".data, "".data⟩ "ciao" 0 rfl).2.1 (by decide),
   (C7_adaptive_ttl ⟨⟨[], 86400⟩, true, 86400, 0, 0, 0⟩
      ⟨30, "Ingegnere".data, "tecnologia".data⟩
      ⟨"Caffè X".data, "libreria".data, "".data⟩ "ciao" 0 rfl).2.2 (by decide)⟩

/-! ### Normalisation lemmas for the fingerprint (C5) -/

theorem pyLower_eq_nil {s : PyStr} : pyLower s = [] ↔ s = [] := by
  simp [pyLower]

/-- Filtering on a non-empty strip before mapping equals mapping first
and filtering the non-empty results (lowercasing preserves emptiness). -/
theorem filter_strip_map_comm (l : List PyStr) :
    ((l.filter (fun i => pyStrip i ≠ [])).map (fun i => pyLower (pyStrip i))) =
    ((l.map (fun i => pyLower (pyStrip i))).filter (fun i => i ≠ [])) := by
  induction l with
  | nil => rfl
  | cons hd tl ih =>
    by_cases h : pyStrip hd = []
    · simp [h, pyLower_eq_nil]
      simpa using ih
    · simp [h, pyLower_eq_nil]
      simpa using ih

/-- Sorting is invariant under permutation of the input: two sorted
rearrangements of the same multiset coincide. -/
theorem pySorted_perm_eq {l₁ l₂ : List PyStr} (h : l₁.Perm l₂) :
    pySorted l₁ = pySorted l₂ := by
  have hp : (pySorted l₁).Perm (pySorted l₂) :=
    ((List.perm_insertionSort _ l₁).trans h).trans
      (List.perm_insertionSort _ l₂).symm
  have hs₁ : List.Sorted (fun a b : PyStr => a ≤ b) (pySorted l₁) :=
    List.sorted_insertionSort _ l₁
  have hs₂ : List.Sorted (fun a b : PyStr => a ≤ b) (pySorted l₂) :=
    List.sorted_insertionSort _ l₂
  exact List.eq_of_perm_of_sorted hp hs₁ hs₂

/-- The normalised interests string only depends on the multiset of
trimmed-and-lowercased comma chunks. -/
theorem normalizedInterests_perm {s₁ s₂ : PyStr}
    (h : ((pySplit ',' s₁).map (fun i => pyLower (pyStrip i))).Perm
      ((pySplit ',' s₂).map (fun i => pyLower (pyStrip i)))) :
    normalizedInterests s₁ = normalizedInterests s₂ := by
  unfold normalizedInterests
  rw [filter_strip_map_comm, filter_strip_map_comm]
  exact congrArg (pyJoin ',') (pySorted_perm_eq (h.filter _))

/-- C5: the cache fingerprint is the MD5 hex digest of the UTF-8 bytes
of `age_range:profession:interests:poi_name:poi_category` built by the
§4.3 normalisation (first conjunct, against the spec-worded
`specFingerprint`); reordering, re-casing or re-trimming the interests
chunks never changes it (second conjunct); changing the age within the
same 5-year bucket never changes it (third conjunct). -/
theorem C5_fingerprint_normalisation :
    (∀ (u : UserParams) (p : PoiParams),
      generate_cache_key u p = specFingerprint u p) ∧
    (∀ (u : UserParams) (p : PoiParams) (interests₂ : PyStr),
      ((pySplit ',' u.interests).map (fun i => pyLower (pyStrip i))).Perm
        ((pySplit ',' interests₂).map (fun i => pyLower (pyStrip i))) →
      generate_cache_key u p =
        generate_cache_key ⟨u.age, u.profession, interests₂⟩ p) ∧
    (∀ (u : UserParams) (p : PoiParams) (age₂ : Int),
      u.age.fdiv 5 = age₂.fdiv 5 →
      generate_cache_key u p =
        generate_cache_key ⟨age₂, u.profession, u.interests⟩ p) := by
  refine ⟨fun u p => ?_, fun u p i₂ h => ?_, fun u p a₂ h => ?_⟩
  · unfold generate_cache_key specFingerprint combinedKeyString ageRange
      normalizedInterests
    rw [filter_strip_map_comm, List.map_map]
    rfl
  · unfold generate_cache_key combinedKeyString
    rw [normalizedInterests_perm h]
  · unfold generate_cache_key combinedKeyString ageRange
    rw [h]

/-- Witness for C5 at the spec scenario S1: the fingerprint of
`(30, Ingegnere, "tecnologia, cucina")` against `(Caffè X, bar)` equals
the spec-worded fingerprint, survives reordering and re-casing the
interests to `"Cucina,Tecnologia"` and an age jitter to 31, and is the
MD5 hex of `"30-34:ingegnere:cucina,tecnologia:caffè x:bar"`. -/
theorem C5_fingerprint_normalisation_witness :
    generate_cache_key ⟨30, "Ingegnere".data, "tecnologia, cucina".data⟩
        ⟨"Caffè X".data, "bar".data, "".data⟩ =
      specFingerprint ⟨30, "Ingegnere".data, "tecnologia, cucina".data⟩
        ⟨"Caffè X".data, "bar".data, "".data⟩ ∧
    generate_cache_key ⟨30, "Ingegnere".data, "tecnologia, cucina".data⟩
        ⟨"Caffè X".data, "bar".data, "".data⟩ =
      generate_cache_key ⟨30, "Ingegnere".data, "Cucina,Tecnologia".data⟩
        ⟨"Caffè X".data, "bar".data, "".data⟩ ∧
    generate_cache_key ⟨30, "Ingegnere".data, "tecnologia, cucina".data⟩
        ⟨"Caffè X".data, "bar".data, "".data⟩ =
      generate_cache_key ⟨31, "Ingegnere".data, "tecnologia, cucina".data⟩
        ⟨"Caffè X".data, "bar".data, "".data⟩ :=
  ⟨C5_fingerprint_normalisation.1 _ _,
   C5_fingerprint_normalisation.2.1
     ⟨30, "Ingegnere".data, "tecnologia, cucina".data⟩
     ⟨"Caffè X".data, "bar".data, "".data⟩ "Cucina,Tecnologia".data (by decide),
   C5_fingerprint_normalisation.2.2
     ⟨30, "Ingegnere".data, "tecnologia, cucina".data⟩
     ⟨"Caffè X".data, "bar".data, "".data⟩ 31 (by decide)⟩

set_option maxRecDepth 40000 in
/-- The S1 scenario fingerprint evaluates to the MD5 hex digest of
`30-34:ingegnere:cucina,tecnologia:caffè x:bar`. -/
example : generate_cache_key ⟨30, "Ingegnere".data, "tecnologia, cucina".data⟩
    ⟨"Caffè X".data, "bar".data, "".data⟩ =
    "9322095e2cceea6083d934fb4181c290".data := by decide

set_option maxRecDepth 40000 in
/-- The combined pre-hash string of scenario S1 is exactly the string
the spec expects the fingerprint to stem from. -/
example : combinedKeyString ⟨30, "Ingegnere".data, "tecnologia, cucina".data⟩
    ⟨"Caffè X".data, "bar".data, "".data⟩ =
    "30-34:ingegnere:cucina,tecnologia:caffè x:bar".data := by decide

/-! ### The cache statistics counters (C10) -/

/-- One call into the `cache_utils` module from the request path. -/
inductive CacheOp where
  | getMsg (u : UserParams) (p : PoiParams) (now : ℚ)
  | putMsg (u : UserParams) (p : PoiParams) (msg : String) (now : ℚ)
  | genMsg (u : UserParams) (p : PoiParams) (llm : Except Unit PyStr) (now : ℚ)

/-- Execute one call against the module state. -/
def runCacheOp (st : CacheUtilsState) : CacheOp → CacheUtilsState
  | .getMsg u p now => (get_cached_message st u p now).2
  | .putMsg u p msg now => (cache_message st u p msg now).2
  | .genMsg u p llm now => (generate_message st u p llm now).2

/-- Execute a sequence of calls. -/
def runCacheOps (st : CacheUtilsState) (ops : List CacheOp) : CacheUtilsState :=
  ops.foldl runCacheOp st

/-- The module state right after import: the given backend and
configuration, all three `cache_stats` counters at zero. -/
def initCacheState (backend : MemoryCache String) (enabled : Bool)
    (cache_ttl : Int) : CacheUtilsState :=
  ⟨backend, enabled, cache_ttl, 0, 0, 0⟩

theorem get_cached_message_stats (st : CacheUtilsState) (u : UserParams)
    (p : PoiParams) (now : ℚ) (hen : st.enabled = true) :
    (get_cached_message st u p now).2.total = st.total + 1 ∧
    (((get_cached_message st u p now).2.hits = st.hits + 1 ∧
        (get_cached_message st u p now).2.misses = st.misses) ∨
      ((get_cached_message st u p now).2.hits = st.hits ∧
        (get_cached_message st u p now).2.misses = st.misses + 1)) := by
  unfold get_cached_message
  rw [if_neg (by simp [hen])]
  cases hres : (st.backend.get (fingerprintKey u p) now).1 with
  | none => simp [hres]
  | some s =>
    by_cases hs : s = ""
    · simp [hres, hs]
    · simp [hres, hs]

theorem get_cached_message_stats_disabled (st : CacheUtilsState) (u : UserParams)
    (p : PoiParams) (now : ℚ) (hen : st.enabled = false) :
    (get_cached_message st u p now).2 = st := by
  unfold get_cached_message
  rw [if_pos hen]

theorem cache_message_stats (st : CacheUtilsState) (u : UserParams)
    (p : PoiParams) (msg : String) (now : ℚ) :
    (cache_message st u p msg now).2.hits = st.hits ∧
    (cache_message st u p msg now).2.misses = st.misses ∧
    (cache_message st u p msg now).2.total = st.total := by
  unfold cache_message
  by_cases hen : st.enabled = false
  · rw [if_pos hen]
    exact ⟨rfl, rfl, rfl⟩
  · rw [if_neg hen]
    exact ⟨rfl, rfl, rfl⟩

theorem generate_message_stats (st : CacheUtilsState) (u : UserParams)
    (p : PoiParams) (llm : Except Unit PyStr) (now : ℚ) :
    (generate_message st u p llm now).2.hits = (get_cached_message st u p now).2.hits ∧
    (generate_message st u p llm now).2.misses = (get_cached_message st u p now).2.misses ∧
    (generate_message st u p llm now).2.total = (get_cached_message st u p now).2.total := by
  unfold generate_message
  cases hres : (get_cached_message st u p now).1 with
  | none =>
    simpa [hres] using cache_message_stats (get_cached_message st u p now).2 u p
      ⟨callLlm llm p⟩ now
  | some s =>
    by_cases hs : s = ""
    · simpa [hres, hs] using cache_message_stats (get_cached_message st u p now).2 u p
        ⟨callLlm llm p⟩ now
    · simp [hres, hs]

theorem runCacheOp_stats (st : CacheUtilsState) (op : CacheOp)
    (h : st.hits + st.misses = st.total) :
    (runCacheOp st op).hits + (runCacheOp st op).misses = (runCacheOp st op).total := by
  cases op with
  | getMsg u p now =>
    by_cases hen : st.enabled = true
    · obtain ⟨ht, hc⟩ := get_cached_message_stats st u p now hen
      rcases hc with ⟨hh, hm⟩ | ⟨hh, hm⟩ <;>
        simp only [runCacheOp, ht, hh, hm] <;> omega
    · have hen2 : st.enabled = false := by simpa using hen
      simp only [runCacheOp, get_cached_message_stats_disabled st u p now hen2]
      exact h
  | putMsg u p msg now =>
    obtain ⟨hh, hm, ht⟩ := cache_message_stats st u p msg now
    simp only [runCacheOp, hh, hm, ht]
    exact h
  | genMsg u p llm now =>
    obtain ⟨hh, hm, ht⟩ := generate_message_stats st u p llm now
    by_cases hen : st.enabled = true
    · obtain ⟨ht2, hc⟩ := get_cached_message_stats st u p now hen
      rcases hc with ⟨hh2, hm2⟩ | ⟨hh2, hm2⟩ <;>
        simp only [runCacheOp, hh, hm, ht, ht2, hh2, hm2] <;> omega
    · have hen2 : st.enabled = false := by simpa using hen
      simp only [runCacheOp, hh, hm, ht,
        get_cached_message_stats_disabled st u p now hen2]
      exact h

theorem runCacheOps_stats (ops : List CacheOp) (st : CacheUtilsState)
    (h : st.hits + st.misses = st.total) :
    (runCacheOps st ops).hits + (runCacheOps st ops).misses =
      (runCacheOps st ops).total := by
  induction ops generalizing st with
  | nil => exact h
  | cons op rest ih => exact ih (runCacheOp st op) (runCacheOp_stats st op h)

/-- C10: starting from the zeroed counters, after any sequence of
`cache_utils` calls `hits + misses = total`; the reported
`hit_rate = hits / total` lies in `[0, 1]` and is `0` when `total` is
`0`; and with the cache enabled each `get_cached_message` call
increments `total` and exactly one of `hits` and `misses`. -/
theorem C10_cache_stats_invariant :
    (∀ (backend : MemoryCache String) (enabled : Bool) (cache_ttl : Int)
        (ops : List CacheOp),
      (runCacheOps (initCacheState backend enabled cache_ttl) ops).hits +
          (runCacheOps (initCacheState backend enabled cache_ttl) ops).misses =
        (runCacheOps (initCacheState backend enabled cache_ttl) ops).total ∧
      0 ≤ statsHitRate (runCacheOps (initCacheState backend enabled cache_ttl) ops) ∧
      statsHitRate (runCacheOps (initCacheState backend enabled cache_ttl) ops) ≤ 1 ∧
      ((runCacheOps (initCacheState backend enabled cache_ttl) ops).total = 0 →
        statsHitRate (runCacheOps (initCacheState backend enabled cache_ttl) ops) = 0)) ∧
    (∀ (st : CacheUtilsState) (u : UserParams) (p : PoiParams) (now : ℚ),
      st.enabled = true →
      (get_cached_message st u p now).2.total = st.total + 1 ∧
      (((get_cached_message st u p now).2.hits = st.hits + 1 ∧
          (get_cached_message st u p now).2.misses = st.misses) ∨
        ((get_cached_message st u p now).2.hits = st.hits ∧
          (get_cached_message st u p now).2.misses = st.misses + 1))) := by
  constructor
  · intro backend enabled cache_ttl ops
    have hinv : (runCacheOps (initCacheState backend enabled cache_ttl) ops).hits +
        (runCacheOps (initCacheState backend enabled cache_ttl) ops).misses =
        (runCacheOps (initCacheState backend enabled cache_ttl) ops).total :=
      runCacheOps_stats ops _ rfl
    set fin := runCacheOps (initCacheState backend enabled cache_ttl) ops with hfin
    refine ⟨hinv, ?_, ?_, ?_⟩
    · unfold statsHitRate
      split
      · positivity
      · exact le_refl 0
    · unfold statsHitRate
      split
      · rename_i hpos
        rw [div_le_one (by exact_mod_cast hpos)]
        exact_mod_cast le_of_add_le_left (le_of_eq hinv)
      · exact zero_le_one
    · intro h0
      unfold statsHitRate
      rw [if_neg (by omega)]
  · intro st u p now hen
    exact get_cached_message_stats st u p now hen

/-- Witness for C10: a concrete two-call run (a miss then a hit is not
needed — any op list exercises the invariant), plus the per-call
increment at a concrete enabled state. -/
theorem C10_cache_stats_invariant_witness :
    ((runCacheOps (initCacheState ⟨[], 86400⟩ true 86400)
        [CacheOp.putMsg ⟨30, [], []⟩ ⟨[], [], []⟩ "m" 0,
         CacheOp.getMsg ⟨30, [], []⟩ ⟨[], [], []⟩ 1]).hits +
      (runCacheOps (initCacheState ⟨[], 86400⟩ true 86400)
        [CacheOp.putMsg ⟨30, [], []⟩ ⟨[], [], []⟩ "m" 0,
         CacheOp.getMsg ⟨30, [], []⟩ ⟨[], [], []⟩ 1]).misses =
      (runCacheOps (initCacheState ⟨[], 86400⟩ true 86400)
        [CacheOp.putMsg ⟨30, [], []⟩ ⟨[], [], []⟩ "m" 0,
         CacheOp.getMsg ⟨30, [], []⟩ ⟨[], [], []⟩ 1]).total) ∧
    ((get_cached_message ⟨⟨[], 86400⟩, true, 86400, 0, 0, 0⟩
        ⟨30, [], []⟩ ⟨[], [], []⟩ 0).2.total = 0 + 1) :=
  ⟨(C10_cache_stats_invariant.1 ⟨[], 86400⟩ true 86400
      [CacheOp.putMsg ⟨30, [], []⟩ ⟨[], [], []⟩ "m" 0,
       CacheOp.getMsg ⟨30, [], []⟩ ⟨[], [], []⟩ 1]).1,
   (C10_cache_stats_invariant.2 ⟨⟨[], 86400⟩, true, 86400, 0, 0, 0⟩
      ⟨30, [], []⟩ ⟨[], [], []⟩ 0 rfl).1⟩

/-- On a cache miss with the backend enabled, `generate_message`
returns the `_call_llm` result uncached, stores it under the
fingerprint with the adaptive TTL, and a later unexpired probe of the
backend for the same fingerprint finds it. -/
theorem generate_message_miss_roundtrip (st : CacheUtilsState) (u : UserParams)
    (p : PoiParams) (llm : Except Unit PyStr) (now t : ℚ)
    (hen : st.enabled = true)
    (hfresh : (st.backend.get (fingerprintKey u p) now).1 = none)
    (ht : ¬ t > now + ((adaptiveTtl st.cache_ttl p.category : Int) : ℚ)) :
    (generate_message st u p llm now).1 = (⟨callLlm llm p⟩, false) ∧
    ((generate_message st u p llm now).2.backend.get (fingerprintKey u p) t).1 =
      some ⟨callLlm llm p⟩ := by
  simp only [generate_message, get_cached_message, cache_message,
    MemoryCache.set, hen, Bool.true_eq_false, if_false, hfresh]
  refine ⟨trivial, ?_⟩
  simp only [MemoryCache.get, Option.getD_some, assocGet_assocSet_self]
  rw [if_neg ht]

set_option maxRecDepth 100000 in
/-- C1: at a `/generate` request whose fingerprint misses the cache and
whose LLM call fails, `generate_message` does return the deterministic
category-keyed fallback message — but `_call_llm` swallows the failure
instead of raising as its docstring declares, so the unconditional
`cache_message` call stores the fallback under the fingerprint and the
next probe for the same fingerprint is a hit, contradicting the claim
that the cache stays empty for that key. -/
theorem C1_fallback_cached_despite_spec :
    (generate_message (initCacheState ⟨[], 86400⟩ true 86400)
        ⟨30, "Ingegnere".data, "tecnologia, cucina".data⟩
        ⟨"Caffè X".data, "bar".data, "".data⟩ (Except.error ()) 0).1 =
      (⟨fallbackMessage "Caffè X".data "bar".data⟩, false) ∧
    ((generate_message (initCacheState ⟨[], 86400⟩ true 86400)
        ⟨30, "Ingegnere".data, "tecnologia, cucina".data⟩
        ⟨"Caffè X".data, "bar".data, "".data⟩ (Except.error ()) 0).2.backend.get
      (fingerprintKey ⟨30, "Ingegnere".data, "tecnologia, cucina".data⟩
        ⟨"Caffè X".data, "bar".data, "".data⟩) 0).1 =
      some ⟨fallbackMessage "Caffè X".data "bar".data⟩ := by
  have ht : ¬ (0 : ℚ) > 0 +
      ((adaptiveTtl (initCacheState ⟨[], 86400⟩ true 86400).cache_ttl
        (PoiParams.mk "Caffè X".data "bar".data "".data).category : Int) : ℚ) := by
    have h : adaptiveTtl (initCacheState ⟨[], 86400⟩ true 86400).cache_ttl
        (PoiParams.mk "Caffè X".data "bar".data "".data).category = 172800 := by
      decide
    rw [h]; norm_num
  exact generate_message_miss_roundtrip (initCacheState ⟨[], 86400⟩ true 86400)
    ⟨30, "Ingegnere".data, "tecnologia, cucina".data⟩
    ⟨"Caffè X".data, "bar".data, "".data⟩ (Except.error ()) 0 0 rfl rfl ht

/-! ## `src/src/query_service/query_engine.py` — `QueryEngine.should_use_stream`

Instants are `datetime` values modelled as integer microseconds; the
Python `timedelta.days` field floors towards minus infinity, and
`total_seconds() / 3600` is exact rational arithmetic. -/

/-- `timedelta.days` of a difference of `datetime`s in microseconds. -/
def timedeltaDays (delta_us : Int) : Int := delta_us.fdiv 86400000000

/-- `(end_time - start_time).total_seconds() / 3600`. -/
def rangeHours (delta_us : Int) : ℚ := (delta_us : ℚ) / 3600000000

/-- `QueryEngine.should_use_stream(start_time, end_time, granularity)`
with `datetime.now()` passed in explicitly. -/
def should_use_stream (now start_time end_time : Int) (granularity : String) :
    Bool :=
  if timedeltaDays (now - start_time) ≤ 7 ∧
      (granularity = "minute" ∨ granularity = "hour") then true
  else if rangeHours (end_time - start_time) ≤ 24 then true
  else false

/-- The routing rule as the claim words it: stream when
`start_time ≥ now − 7 days` and the granularity is fine, else stream
when the range is at most 24 hours, else batch.  Kept separate from
`should_use_stream` so the two can be compared. -/
def specShouldUseStream (now start_time end_time : Int) (granularity : String) :
    Bool :=
  if start_time ≥ now - 7 * 86400000000 ∧
      (granularity = "minute" ∨ granularity = "hour") then true
  else if end_time - start_time ≤ 24 * 3600000000 then true
  else false

/-- C3 counterexample: a query posed 7.5 days after its start instant,
at granularity `hour`, with a 7.5-day range.  The code routes it to the
stream source (`timedelta.days` floors 7.5 days to 7), the claim
routes it to batch (`start_time < now − 7 days` and the range exceeds
24 hours). -/
theorem C3_routing_counterexample :
    should_use_stream 648000000000 0 648000000000 "hour" = true ∧
    specShouldUseStream 648000000000 0 648000000000 "hour" = false := by
  constructor
  · have h7 : timedeltaDays 648000000000 ≤ 7 := by decide
    simp [should_use_stream, h7]
  · decide

/-- C3 as amended: the recency window of the first routing rule is
`(now − start_time).days ≤ 7`, i.e. `start_time > now − 8 days` (not
`start_time ≥ now − 7 days`); the 24-hour range rule and the batch
default are as claimed. -/
theorem C3_routing_amended (now start_time end_time : Int) (granularity : String) :
    should_use_stream now start_time end_time granularity = true ↔
      ((now - start_time < 8 * 86400000000 ∧
          (granularity = "minute" ∨ granularity = "hour")) ∨
        end_time - start_time ≤ 24 * 3600000000) := by
  have hdays : timedeltaDays (now - start_time) ≤ 7 ↔
      now - start_time < 8 * 86400000000 := by
    unfold timedeltaDays
    rw [Int.fdiv_eq_ediv _ (by norm_num)]
    constructor
    · intro h
      have := Int.lt_ediv_add_one_mul_self (now - start_time)
        (show (0:Int) < 86400000000 by norm_num)
      nlinarith
    · intro h
      have : (now - start_time) / 86400000000 < 8 :=
        Int.ediv_lt_of_lt_mul (by norm_num) (by linarith)
      omega
  have hrange : rangeHours (end_time - start_time) ≤ 24 ↔
      end_time - start_time ≤ 24 * 3600000000 := by
    unfold rangeHours
    rw [div_le_iff₀ (by norm_num)]
    constructor
    · intro h
      exact_mod_cast h
    · intro h
      exact_mod_cast h
  unfold should_use_stream
  by_cases hg : granularity = "minute" ∨ granularity = "hour"
  · by_cases h1 : timedeltaDays (now - start_time) ≤ 7
    · rw [if_pos ⟨h1, hg⟩]
      exact ⟨fun _ => Or.inl ⟨hdays.mp h1, hg⟩, fun _ => rfl⟩
    · rw [if_neg (fun hc => h1 hc.1)]
      by_cases h2 : rangeHours (end_time - start_time) ≤ 24
      · rw [if_pos h2]
        exact ⟨fun _ => Or.inr (hrange.mp h2), fun _ => rfl⟩
      · rw [if_neg h2]
        constructor
        · intro habs
          exact absurd habs (by simp)
        · rintro (⟨hlt, _⟩ | hle)
          · exact absurd (hdays.mpr hlt) h1
          · exact absurd (hrange.mpr hle) h2
  · rw [if_neg (fun hc => hg hc.2)]
    by_cases h2 : rangeHours (end_time - start_time) ≤ 24
    · rw [if_pos h2]
      exact ⟨fun _ => Or.inr (hrange.mp h2), fun _ => rfl⟩
    · rw [if_neg h2]
      constructor
      · intro habs
        exact absurd habs (by simp)
      · rintro (⟨_, hgg⟩ | hle)
        · exact absurd hgg hg
        · exact absurd (hrange.mpr hle) h2

/-! ## `src/src/query_service/app.py` — `query_timeseries` and
`src/src/query_service/cache_manager.py`

The response model has a `data` payload (opaque here), the `source`
label and the `cached` flag.  The cache manager stores `response.dict()`
as-is (the in-process backend keeps the record unserialised) and on a
probe hit the endpoint returns `TimeSeriesResponse(**cached)`. -/

/-- `TimeSeriesResponse` with an opaque `data` payload. -/
structure TimeSeriesResponseM (D : Type) where
  data : D
  source : String
  cached : Bool
  deriving DecidableEq, Repr

/-- The `POST /timeseries` handler after the cache key is computed:
probe the cache; on a hit return the stored record reconstructed as a
response; on a miss route via `should_use_stream`, build the response
with `cached=False`, store it and return it. -/
def query_timeseries {D : Type}
    (cache : List (String × TimeSeriesResponseM D)) (cache_key : String)
    (use_stream : Bool) (stream_result batch_result : D) :
    TimeSeriesResponseM D × List (String × TimeSeriesResponseM D) :=
  match assocGet cache cache_key with
  | some cached => (⟨cached.data, cached.source, cached.cached⟩, cache)
  | none =>
    let response : TimeSeriesResponseM D :=
      ⟨if use_stream then stream_result else batch_result,
       if use_stream then "stream" else "batch", false⟩
    (response, assocSet cache cache_key response)

/-- C2: after a first `/timeseries` request stores its response, a
second request with the same cache key finds the stored record — but
the response returned on the hit carries the stored `cached=False`
flag, not `cached=true` as the claim requires: the handler caches
`response.dict()` with `cached=False` and replays it verbatim. -/
theorem C2_cache_hit_reports_false :
    (assocGet ((query_timeseries ([] : List (String × TimeSeriesResponseM String))
        "query:timeseries:7a1" true "sdata" "bdata").2)
      "query:timeseries:7a1").isSome = true ∧
    (query_timeseries ((query_timeseries ([] : List (String × TimeSeriesResponseM String))
        "query:timeseries:7a1" true "sdata" "bdata").2)
      "query:timeseries:7a1" true "sdata" "bdata").1.cached = false := by
  constructor
  · decide
  · decide

/-! ## `src/src/data_pipeline/operators.py` —
`check_proximity_and_generate_message`

The event after the nearest-shop merge carries the `distance` key when
the join succeeded (`event.get("distance", float('inf'))` treats a
missing key as infinitely far).  The user-profile lookup and the
generator HTTP call are oracles; the embedding counts how many times
each collaborator is consulted. -/

/-- A user profile row from the `users` table. -/
structure ProfileM where
  user_id : Int
  age : Int
  profession : PyStr
  interests : PyStr
  deriving DecidableEq, Repr

/-- The outcome of the proximity stage for one event: the `poi_info`
value written into the event, and how many profile lookups and
generator calls were made. -/
structure ProximityOutcome where
  poi_info : PyStr
  profile_lookups : Nat
  generator_calls : Nat
  deriving DecidableEq, Repr

/-- The proximity threshold `MAX_POI_DISTANCE` (metres). -/
def MAX_POI_DISTANCE : ℚ := 200

/-- `check_proximity_and_generate_message`: if the distance exceeds the
threshold (a missing `distance` key counts as `float('inf')`), set
`poi_info` to the empty string without consulting anyone; otherwise
look up the profile (`None` on miss or lookup failure) and, when it
exists, call the generator (whose result is `""` on HTTP or transport
failure, mirroring `_generate_message`). -/
def tooFar (distance : Option ℚ) : Bool :=
  match distance with
  | some d => decide (d > MAX_POI_DISTANCE)
  | none => true

def check_proximity_and_generate_message (distance : Option ℚ)
    (profile : Option ProfileM) (generator : ProfileM → PyStr) :
    ProximityOutcome :=
  if tooFar distance then
    ⟨[], 0, 0⟩
  else
    match profile with
    | some prof => ⟨generator prof, 1, 1⟩
    | none => ⟨[], 1, 0⟩

/-- C4: `poi_info` is non-empty only if the event's distance is present
and at most 200 m, a profile was found and the generator returned a
non-empty message; and beyond 200 m the stage writes the empty string
and consults neither the profile store nor the generator. -/
theorem C4_proximity_gate (distance : Option ℚ) (profile : Option ProfileM)
    (generator : ProfileM → PyStr) :
    ((check_proximity_and_generate_message distance profile generator).poi_info ≠ [] →
      (∃ d, distance = some d ∧ d ≤ MAX_POI_DISTANCE) ∧
      (∃ prof, profile = some prof ∧ generator prof ≠ [])) ∧
    (∀ d, distance = some d → d > MAX_POI_DISTANCE →
      check_proximity_and_generate_message distance profile generator = ⟨[], 0, 0⟩) := by
  constructor
  · intro hne
    unfold check_proximity_and_generate_message at hne
    cases hd : distance with
    | none => rw [hd] at hne; simp [tooFar] at hne
    | some d =>
      rw [hd] at hne
      by_cases hfar : d > MAX_POI_DISTANCE
      · simp [tooFar, hfar] at hne
      · simp only [tooFar, decide_eq_true_eq, if_neg hfar] at hne
        refine ⟨⟨d, rfl, not_lt.mp hfar⟩, ?_⟩
        cases hp : profile with
        | none => rw [hp] at hne; simp at hne
        | some prof =>
          rw [hp] at hne
          exact ⟨prof, rfl, hne⟩
  · intro d hd hgt
    unfold check_proximity_and_generate_message
    rw [hd]
    simp [tooFar, hgt]

/-- Witness for C4 at concrete inputs: at 250 m the stage emits the
empty `poi_info` with zero lookups and zero calls; at 12 m with a
profile and a non-empty generator answer, the non-emptiness hypotheses
are recoverable from the theorem. -/
theorem C4_proximity_gate_witness :
    check_proximity_and_generate_message (some 250)
      (some ⟨7, 30, "Ingegnere".data, "tecnologia".data⟩)
      (fun _ => "ciao".data) = ⟨[], 0, 0⟩ ∧
    ((∃ d, (some (12 : ℚ)) = some d ∧ d ≤ MAX_POI_DISTANCE) ∧
      (∃ prof, (some (ProfileM.mk 7 30 "Ingegnere".data "tecnologia".data)) = some prof ∧
        (fun _ : ProfileM => "ciao".data) prof ≠ [])) :=
  ⟨(C4_proximity_gate (some 250) (some ⟨7, 30, "Ingegnere".data, "tecnologia".data⟩)
      (fun _ => "ciao".data)).2 250 rfl (by norm_num [MAX_POI_DISTANCE]),
   (C4_proximity_gate (some 12) (some ⟨7, 30, "Ingegnere".data, "tecnologia".data⟩)
      (fun _ => "ciao".data)).1 (by decide)⟩

/-! ## Python values and the `json` module

`RedisCache` serialises non-string values with `json.dumps` and
deserialises with `json.loads`.  Python values that can reach the cache
are modelled by the mutual inductive `PyVal` (numbers as integers —
the repository stores counters and identifiers; floats are outside the
model).  `dumps` mirrors `json.dumps` with its default separators
`", "` and `": "` (non-ASCII characters are left raw, i.e.
`ensure_ascii` is modelled off — it does not affect round-trips), and
`pyLoads` is a recursive-descent JSON parser standing for
`json.loads`. -/

mutual
inductive PyVal where
  | pnone
  | pbool (b : Bool)
  | pint (n : Int)
  | pstr (s : PyStr)
  | plist (xs : PyValSeq)
  | pdict (es : PyValMap)
  deriving DecidableEq, Repr
inductive PyValSeq where
  | nil
  | cons (hd : PyVal) (tl : PyValSeq)
  deriving DecidableEq, Repr
inductive PyValMap where
  | nil
  | cons (k : PyStr) (v : PyVal) (tl : PyValMap)
  deriving DecidableEq, Repr
end

/-- The character of a decimal digit. -/
def digitChar (n : Nat) : Char := Char.ofNat (48 + n)

/-- Decimal digits of a natural number, most significant first
(fuel-based so the definition reduces under `decide`). -/
def natDecimalAux : Nat → Nat → PyStr
  | 0, _ => []
  | fuel + 1, n =>
    if n < 10 then [digitChar n]
    else natDecimalAux fuel (n / 10) ++ [digitChar (n % 10)]

/-- Decimal rendering of a natural number. -/
def natDecimal (n : Nat) : PyStr := natDecimalAux (n + 1) n

/-- Python decimal rendering of an integer. -/
def intDecimal (n : Int) : PyStr :=
  if n < 0 then '-' :: natDecimal n.natAbs else natDecimal n.toNat

/-- The JSON escape of one character inside a string literal. -/
def jsonEscapeChar (c : Char) : PyStr :=
  if c = '"' then ['\\', '"']
  else if c = '\\' then ['\\', '\\']
  else if c = '\x08' then ['\\', 'b']
  else if c = '\t' then ['\\', 't']
  else if c = '\n' then ['\\', 'n']
  else if c = '\x0c' then ['\\', 'f']
  else if c = '\r' then ['\\', 'r']
  else if c.toNat < 32 then
    ['\\', 'u', '0', '0', MD5.hexDigit (c.toNat / 16), MD5.hexDigit (c.toNat % 16)]
  else [c]

/-- A JSON string literal with quotes and escapes. -/
def jsonQuote (s : PyStr) : PyStr := '"' :: (s.map jsonEscapeChar).flatten ++ ['"']

mutual
/-- `json.dumps` over the value model. -/
def dumps : PyVal → PyStr
  | .pnone => "null".data
  | .pbool true => "true".data
  | .pbool false => "false".data
  | .pint n => intDecimal n
  | .pstr s => jsonQuote s
  | .plist .nil => "[]".data
  | .plist (.cons v vs) => '[' :: dumps v ++ dumpsSeqTail vs ++ [']']
  | .pdict .nil => ['\x7b', '\x7d']
  | .pdict (.cons k v es) =>
    '\x7b' :: jsonQuote k ++ ':' :: ' ' :: dumps v ++ dumpsMapTail es ++ ['\x7d']
/-- The `", "`-separated remaining elements of an array. -/
def dumpsSeqTail : PyValSeq → PyStr
  | .nil => []
  | .cons v vs => ',' :: ' ' :: dumps v ++ dumpsSeqTail vs
/-- The `", "`-separated remaining members of an object. -/
def dumpsMapTail : PyValMap → PyStr
  | .nil => []
  | .cons k v es => ',' :: ' ' :: jsonQuote k ++ ':' :: ' ' :: dumps v ++ dumpsMapTail es
end

/-- JSON insignificant whitespace. -/
def isJsonWs (c : Char) : Bool := c = ' ' || c = '\t' || c = '\n' || c = '\r'

/-- Skip insignificant whitespace. -/
def skipWs (s : PyStr) : PyStr := s.dropWhile isJsonWs

/-- ASCII decimal digit test. -/
def isDigitChar (c : Char) : Bool := 48 ≤ c.toNat && c.toNat ≤ 57

/-- Accumulate a run of decimal digits. -/
def parseDigitsAux : PyStr → Nat → Nat × PyStr
  | [], acc => (acc, [])
  | c :: cs, acc =>
    if isDigitChar c then parseDigitsAux cs (acc * 10 + (c.toNat - 48))
    else (acc, c :: cs)

/-- A digit run starting with `0` and at least two digits long: the
number regex of Python's scanner matches only the leading `0`, and the
digit left behind is a syntax error in every JSON context, so such a
run fails the parse. -/
def leadingZeroRun : PyStr → Bool
  | [] => false
  | c :: rest =>
    c = '0' && (match rest with | d :: _ => isDigitChar d | [] => false)

/-- What follows the integer part of a number literal, per the Python
scanner's regex `(-?(?:0|[1-9]\d+|\d))(\.\d+)?([eE][-+]?\d+)?`: nothing
(the literal is an `int`), a well-formed fraction or exponent (the
literal is a `float`, whose IEEE value the model does not track), or a
stray `.`/`e`/`E` that the regex leaves unconsumed — a character no
JSON context accepts after a number, so the document is invalid. -/
inductive NumTail where
  | intOnly
  | floaty (rest : PyStr)
  | bad
  deriving DecidableEq, Repr

/-- The exponent part `([eE][-+]?\d+)?` of a number literal. -/
def parseExpTail (s : PyStr) : NumTail :=
  match s with
  | [] => .intOnly
  | e :: r =>
    if e = 'e' ∨ e = 'E' then
      match r with
      | [] => .bad
      | c :: r2 =>
        if c = '+' ∨ c = '-' then
          match r2 with
          | [] => .bad
          | d :: _ => if isDigitChar d then .floaty (parseDigitsAux r2 0).2 else .bad
        else if isDigitChar c then .floaty (parseDigitsAux r 0).2
        else .bad
    else .intOnly

/-- The fraction-and-exponent part `(\.\d+)?([eE][-+]?\d+)?` of a
number literal. -/
def parseFracExpTail (s : PyStr) : NumTail :=
  match s with
  | [] => .intOnly
  | c :: r =>
    if c = '.' then
      match r with
      | [] => .bad
      | d :: _ =>
        if isDigitChar d then
          match parseExpTail (parseDigitsAux r 0).2 with
          | .intOnly => .floaty (parseDigitsAux r 0).2
          | .floaty r2 => .floaty r2
          | .bad => .bad
        else .bad
    else parseExpTail (c :: r)

/-- Value of one hex digit. -/
def hexNibble (c : Char) : Option Nat :=
  if 48 ≤ c.toNat ∧ c.toNat ≤ 57 then some (c.toNat - 48)
  else if 97 ≤ c.toNat ∧ c.toNat ≤ 102 then some (c.toNat - 87)
  else if 65 ≤ c.toNat ∧ c.toNat ≤ 70 then some (c.toNat - 55)
  else none

/-- The character named by a single-letter escape. -/
def escCode (e : Char) : Option Char :=
  if e = '"' then some '"'
  else if e = '\\' then some '\\'
  else if e = '/' then some '/'
  else if e = 'b' then some '\x08'
  else if e = 'f' then some '\x0c'
  else if e = 'n' then some '\n'
  else if e = 'r' then some '\r'
  else if e = 't' then some '\t'
  else none

/-- Parse the body of a JSON string literal after the opening quote, as
`py_scanstring` does in strict mode: a raw control character is an
error; `\uXXXX` needs four hex digits; a high-surrogate escape combines
with an immediately following `\uDC00`–`\uDFFF` escape into one astral
character, and an unpaired surrogate escape yields a Python `str`
holding a lone surrogate — a character no Lean `Char` represents, so
the decoded value is reported as `none` (outside the model) while the
literal's syntax is still checked to the closing quote. The result is
`(decoded value if modeled, input after the closing quote)`. Every
step consumes at least one character, so any fuel above the input
length never runs out; the callers pass `length + 1`. -/
def parseStrBody : Nat → PyStr → Option (Option PyStr × PyStr)
  | 0, _ => none
  | _ + 1, [] => none
  | fuel + 1, c :: rest =>
    if c = '"' then some (some [], rest)
    else if c = '\\' then
      match rest with
      | [] => none
      | e :: rest2 =>
        if e = 'u' then
          match rest2 with
          | h1 :: h2 :: h3 :: h4 :: rest3 =>
            match hexNibble h1, hexNibble h2, hexNibble h3, hexNibble h4 with
            | some a, some b, some c2, some d =>
              let u := ((a * 16 + b) * 16 + c2) * 16 + d
              if 55296 ≤ u ∧ u ≤ 56319 then
                match rest3 with
                | x1 :: x2 :: g1 :: g2 :: g3 :: g4 :: rest4 =>
                  if x1 = '\\' ∧ x2 = 'u' then
                    match hexNibble g1, hexNibble g2, hexNibble g3, hexNibble g4 with
                    | some a2, some b2, some c3, some d2 =>
                      let u2 := ((a2 * 16 + b2) * 16 + c3) * 16 + d2
                      if 56320 ≤ u2 ∧ u2 ≤ 57343 then
                        match parseStrBody fuel rest4 with
                        | some (ocs, r) =>
                          some (ocs.map (fun cs =>
                            Char.ofNat (65536 + (u - 55296) * 1024 + (u2 - 56320)) :: cs), r)
                        | none => none
                      else
                        match parseStrBody fuel rest3 with
                        | some (_, r) => some (none, r)
                        | none => none
                    | _, _, _, _ => none
                  else
                    match parseStrBody fuel rest3 with
                    | some (_, r) => some (none, r)
                    | none => none
                | _ =>
                  match parseStrBody fuel rest3 with
                  | some (_, r) => some (none, r)
                  | none => none
              else if 56320 ≤ u ∧ u ≤ 57343 then
                match parseStrBody fuel rest3 with
                | some (_, r) => some (none, r)
                | none => none
              else
                match parseStrBody fuel rest3 with
                | some (ocs, r) => some (ocs.map (fun cs => Char.ofNat u :: cs), r)
                | none => none
            | _, _, _, _ => none
          | _ => none
        else
          match escCode e with
          | some c2 =>
            match parseStrBody fuel rest2 with
            | some (ocs, r) => some (ocs.map (fun cs => c2 :: cs), r)
            | none => none
          | none => none
    else if c.toNat < 32 then none
    else
      match parseStrBody fuel rest with
      | some (ocs, r) => some (ocs.map (fun cs => c :: cs), r)
      | none => none

/-- Match a literal word, returning the input after it. -/
def matchLit : PyStr → PyStr → Option PyStr
  | [], s => some s
  | _ :: _, [] => none
  | c :: cs, x :: xs => if x = c then matchLit cs xs else none

/-- The first value stored under a key of an object. -/
def mapLookup (k : PyStr) : PyValMap → Option PyVal
  | .nil => none
  | .cons k2 v es => if k2 = k then some v else mapLookup k es

/-- Remove every entry stored under a key of an object. -/
def mapEraseAll (k : PyStr) : PyValMap → PyValMap
  | .nil => .nil
  | .cons k2 v es => if k2 = k then mapEraseAll k es else .cons k2 v (mapEraseAll k es)

/-- Prepend a parsed member to the object built from the members after
it, with Python `dict` semantics (the decoder builds `dict(pairs)`): a
duplicated key keeps its first position but the value written last —
the one already present among the later members. -/
def dictInsert (k : PyStr) (v : PyVal) (es : PyValMap) : PyValMap :=
  match mapLookup k es with
  | some w => .cons k w (mapEraseAll k es)
  | none => .cons k v es

mutual
/-- Parse one JSON value, as Python's scanner does (fuel bounds the
recursion depth; parse outcomes are error / value outside the model /
modeled value, see `pyLoads`). A number follows the scanner's regex:
optional minus, integer part without leading zeros, then an optional
fraction and exponent which make it a `float`; `Infinity`, `-Infinity`
and `NaN` are the `parse_constant` floats. Float values are parsed but
not tracked by the model. -/
def parseValue : Nat → PyStr → Option (Option PyVal × PyStr)
  | 0, _ => none
  | fuel + 1, s =>
    match skipWs s with
    | [] => none
    | c :: rest =>
      if c = '"' then
        match parseStrBody (rest.length + 1) rest with
        | some (ocs, r) => some (ocs.map (fun cs => PyVal.pstr cs), r)
        | none => none
      else if c = '[' then
        match skipWs rest with
        | ']' :: r2 => some (some (.plist .nil), r2)
        | r1 =>
          match parseValue fuel r1 with
          | some (ov, r2) =>
            match parseSeqTail fuel r2 with
            | some (ovs, r3) =>
              some ((match ov, ovs with
                     | some v, some vs => some (.plist (.cons v vs))
                     | _, _ => none), r3)
            | none => none
          | none => none
      else if c = '\x7b' then
        match skipWs rest with
        | '\x7d' :: r2 => some (some (.pdict .nil), r2)
        | '"' :: r2 =>
          match parseStrBody (r2.length + 1) r2 with
          | some (ok, r3) =>
            match skipWs r3 with
            | ':' :: r4 =>
              match parseValue fuel r4 with
              | some (ov, r5) =>
                match parseMapTail fuel r5 with
                | some (oes, r6) =>
                  some ((match ok, ov, oes with
                         | some k, some v, some es => some (.pdict (dictInsert k v es))
                         | _, _, _ => none), r6)
                | none => none
              | none => none
            | _ => none
          | none => none
        | _ => none
      else if c = 'n' then
        match matchLit "ull".data rest with
        | some r => some (some .pnone, r)
        | none => none
      else if c = 't' then
        match matchLit "rue".data rest with
        | some r => some (some (.pbool true), r)
        | none => none
      else if c = 'f' then
        match matchLit "alse".data rest with
        | some r => some (some (.pbool false), r)
        | none => none
      else if c = 'I' then
        match matchLit "nfinity".data rest with
        | some r => some (none, r)
        | none => none
      else if c = 'N' then
        match matchLit "aN".data rest with
        | some r => some (none, r)
        | none => none
      else if c = '-' then
        match matchLit "Infinity".data rest with
        | some r => some (none, r)
        | none =>
          match rest with
          | c2 :: _ =>
            if isDigitChar c2 then
              if leadingZeroRun rest then none
              else
                match parseFracExpTail (parseDigitsAux rest 0).2 with
                | .intOnly =>
                  some (some (.pint (-((parseDigitsAux rest 0).1 : Int))),
                    (parseDigitsAux rest 0).2)
                | .floaty r2 => some (none, r2)
                | .bad => none
            else none
          | [] => none
      else if isDigitChar c then
        if leadingZeroRun (c :: rest) then none
        else
          match parseFracExpTail (parseDigitsAux (c :: rest) 0).2 with
          | .intOnly =>
            some (some (.pint ((parseDigitsAux (c :: rest) 0).1 : Int)),
              (parseDigitsAux (c :: rest) 0).2)
          | .floaty r2 => some (none, r2)
          | .bad => none
      else none
/-- Parse the rest of an array after a parsed element. -/
def parseSeqTail : Nat → PyStr → Option (Option PyValSeq × PyStr)
  | 0, _ => none
  | fuel + 1, s =>
    match skipWs s with
    | ']' :: r => some (some .nil, r)
    | ',' :: r =>
      match parseValue fuel r with
      | some (ov, r2) =>
        match parseSeqTail fuel r2 with
        | some (ovs, r3) =>
          some ((match ov, ovs with
                 | some v, some vs => some (.cons v vs)
                 | _, _ => none), r3)
        | none => none
      | none => none
    | _ => none
/-- Parse the rest of an object after a parsed member. -/
def parseMapTail : Nat → PyStr → Option (Option PyValMap × PyStr)
  | 0, _ => none
  | fuel + 1, s =>
    match skipWs s with
    | '\x7d' :: r => some (some .nil, r)
    | ',' :: r =>
      match skipWs r with
      | '"' :: r2 =>
        match parseStrBody (r2.length + 1) r2 with
        | some (ok, r3) =>
          match skipWs r3 with
          | ':' :: r4 =>
            match parseValue fuel r4 with
            | some (ov, r5) =>
              match parseMapTail fuel r5 with
              | some (oes, r6) =>
                some ((match ok, ov, oes with
                       | some k, some v, some es => some (dictInsert k v es)
                       | _, _, _ => none), r6)
              | none => none
            | none => none
          | _ => none
        | none => none
      | _ => none
    | _ => none
end

/-- `json.loads`: parse one document, allowing trailing whitespace
only. `none` is a `JSONDecodeError` (the caller's `except` branch);
`some none` is a successful parse whose value the model does not track
— it contains a float (a fraction, an exponent, `Infinity` or `NaN`)
or a lone-surrogate string; `some (some v)` is the value `v`. -/
def pyLoads (s : PyStr) : Option (Option PyVal) :=
  match parseValue (s.length + 1) s with
  | some (ov, rest) => if skipWs rest = [] then some ov else none
  | none => none

mutual
/-- A value all of whose objects have pairwise-distinct keys: exactly
the values that encode actual Python data, since a `dict` cannot hold
the same key twice. -/
def wfVal : PyVal → Bool
  | .pnone => true
  | .pbool _ => true
  | .pint _ => true
  | .pstr _ => true
  | .plist xs => wfSeq xs
  | .pdict es => wfMap es
/-- `wfVal` on every element of an array. -/
def wfSeq : PyValSeq → Bool
  | .nil => true
  | .cons v vs => wfVal v && wfSeq vs
/-- Distinct keys and `wfVal` values in an object. -/
def wfMap : PyValMap → Bool
  | .nil => true
  | .cons k v es => !(mapLookup k es).isSome && wfVal v && wfMap es
end

/-- `bytes.decode('utf-8')` (strict): rejects stray or overlong
sequences and surrogates, as CPython does. -/
def utf8Decode : List Nat → Option PyStr
  | [] => some []
  | b :: rest =>
    if b < 128 then
      (utf8Decode rest).map (fun cs => Char.ofNat b :: cs)
    else if b < 224 then
      match rest with
      | [] => none
      | b2 :: rest2 =>
        if 192 ≤ b ∧ 128 ≤ b2 ∧ b2 < 192 then
          if 128 ≤ (b - 192) * 64 + (b2 - 128) then
            (utf8Decode rest2).map (fun cs => Char.ofNat ((b - 192) * 64 + (b2 - 128)) :: cs)
          else none
        else none
    else if b < 240 then
      match rest with
      | [] => none
      | b2 :: rest2 =>
        match rest2 with
        | [] => none
        | b3 :: rest3 =>
          if 128 ≤ b2 ∧ b2 < 192 ∧ 128 ≤ b3 ∧ b3 < 192 then
            if 2048 ≤ (b - 224) * 4096 + (b2 - 128) * 64 + (b3 - 128) ∧
                ((b - 224) * 4096 + (b2 - 128) * 64 + (b3 - 128) < 55296 ∨
                  57344 ≤ (b - 224) * 4096 + (b2 - 128) * 64 + (b3 - 128)) then
              (utf8Decode rest3).map
                (fun cs => Char.ofNat ((b - 224) * 4096 + (b2 - 128) * 64 + (b3 - 128)) :: cs)
            else none
          else none
    else
      match rest with
      | [] => none
      | b2 :: rest2 =>
        match rest2 with
        | [] => none
        | b3 :: rest3 =>
          match rest3 with
          | [] => none
          | b4 :: rest4 =>
            if b < 245 ∧ 128 ≤ b2 ∧ b2 < 192 ∧ 128 ≤ b3 ∧ b3 < 192 ∧ 128 ≤ b4 ∧ b4 < 192 then
              if 65536 ≤ (b - 240) * 262144 + (b2 - 128) * 4096 + (b3 - 128) * 64 + (b4 - 128) ∧
                  (b - 240) * 262144 + (b2 - 128) * 4096 + (b3 - 128) * 64 + (b4 - 128) < 1114112 then
                (utf8Decode rest4).map
                  (fun cs => Char.ofNat
                    ((b - 240) * 262144 + (b2 - 128) * 4096 + (b3 - 128) * 64 + (b4 - 128)) :: cs)
              else none
            else none

/-! ## `src/src/cache/redis_cache.py` — `RedisCache`

The external Redis server is a key → (bytes, absolute expiry) store;
`client` is `None` when the constructor's ping failed, and each network
operation carries an explicit outcome (`fails` stands for a raised
exception, which the code catches). -/

/-- The external Redis server state. -/
structure RedisServer where
  entries : List (String × (List Nat × ℚ))
  deriving DecidableEq, Repr

/-- `client.get(key)` on the server model at instant `now`. -/
def serverGet (srv : RedisServer) (key : String) (now : ℚ) : Option (List Nat) :=
  match assocGet srv.entries key with
  | some be => if now < be.2 then some be.1 else none
  | none => none

/-- `client.setex(key, ttl, bytes)` on the server model. -/
def serverSetex (srv : RedisServer) (key : String) (ttl : Int) (b : List Nat)
    (now : ℚ) : RedisServer :=
  ⟨assocSet srv.entries key (b, now + (ttl : ℚ))⟩

/-- Whether a network call to the backend raises. -/
inductive NetOutcome where
  | ok
  | fails (msg : String)
  deriving DecidableEq, Repr

/-- The serialisation performed by `RedisCache.set`: strings are
UTF-8-encoded directly, everything else goes through `json.dumps`. -/
def encodeForRedis (value : PyVal) : List Nat :=
  match value with
  | .pstr s => utf8Encode s
  | v => utf8Encode (dumps v)

/-- A non-`None` result of `json.loads` inside `RedisCache.get`: a
value of the model, or a successfully parsed object the model does not
track further (a float, an infinity, a `NaN` or a lone-surrogate
string appeared while building it). -/
inductive PyObj where
  | known (v : PyVal)
  | untracked
  deriving DecidableEq, Repr

/-- `json.detect_encoding` selects UTF-8 for this byte string:
no UTF-16/UTF-32 byte-order mark, no NUL among the bytes it sniffs
(which would select a UTF-16/32 variant), and no UTF-8 BOM (which
would select `utf-8-sig`). `json.loads` on `bytes` decodes with the
detected codec before parsing, so the UTF-8 reading of `RedisCache.get`
below is exact on this region; the theorems in this file stay inside
it. -/
def detectsUtf8 (b : List Nat) : Bool :=
  match b with
  | 254 :: 255 :: _ => false
  | 255 :: 254 :: _ => false
  | 239 :: 187 :: 191 :: _ => false
  | b0 :: b1 :: _ :: _ :: _ => !(b0 = 0 || b1 = 0)
  | [b0, b1] => !(b0 = 0 || b1 = 0)
  | _ => true

/-- The deserialisation performed by `RedisCache.get` on a truthy
reply, in the UTF-8 regime of `detectsUtf8`: `json.loads` decodes the
bytes (a `UnicodeDecodeError` propagates to the `except`-branch, which
returns `None`) and parses; on `JSONDecodeError` the fallback
`value.decode('utf-8')` returns the decoded string itself. -/
def redisParse (b : List Nat) : Option PyObj :=
  match utf8Decode b with
  | some s =>
    match pyLoads s with
    | some (some v) => some (.known v)
    | some none => some .untracked
    | none => some (.known (.pstr s))
  | none => none

namespace RedisCache

/-- `RedisCache.get(key)`: `None` without a connected client, `None`
when the network call raises, `None` on a falsy reply (absent key or
empty bytes), else the parsed value. -/
def get (client : Option Unit) (srv : RedisServer) (key : String) (now : ℚ)
    (net : NetOutcome) : Option PyObj :=
  match client with
  | none => none
  | some _ =>
    match net with
    | .fails _ => none
    | .ok =>
      match serverGet srv key now with
      | some b => if b ≠ [] then redisParse b else none
      | none => none

/-- `RedisCache.set(key, value, ttl)`: `False` without a connected
client or when the call raises, else `setex` with the serialised
value. -/
def set (client : Option Unit) (srv : RedisServer) (key : String)
    (value : PyVal) (ttl : Int) (now : ℚ) (net : NetOutcome) :
    Bool × RedisServer :=
  match client with
  | none => (false, srv)
  | some _ =>
    match net with
    | .fails _ => (false, srv)
    | .ok => (true, serverSetex srv key ttl (encodeForRedis value) now)

end RedisCache

/-- C9: with no connected client, or with the backend operation
raising, the remote cache's `get` returns none and its `set` returns
false (leaving the server untouched); both operations are total
functions of the outcome, so no exception reaches the caller. -/
theorem C9_redis_unavailable_degrades (srv : RedisServer) (key : String)
    (value : PyVal) (ttl : Int) (now : ℚ) (msg : String) :
    RedisCache.get none srv key now NetOutcome.ok = none ∧
    RedisCache.get none srv key now (NetOutcome.fails msg) = none ∧
    RedisCache.set none srv key value ttl now NetOutcome.ok = (false, srv) ∧
    RedisCache.set none srv key value ttl now (NetOutcome.fails msg) = (false, srv) ∧
    RedisCache.get (some ()) srv key now (NetOutcome.fails msg) = none ∧
    RedisCache.set (some ()) srv key value ttl now (NetOutcome.fails msg) = (false, srv) :=
  ⟨rfl, rfl, rfl, rfl, rfl, rfl⟩

set_option maxRecDepth 10000 in
/-- Parser sanity: a nested document round-trips. -/
example : pyLoads (dumps (.pdict (.cons "a".data (.pint (-12))
    (.cons "b".data (.plist (.cons (.pstr "x\n".data) (.cons .pnone .nil)))
      .nil)))) = some (some (.pdict (.cons "a".data (.pint (-12))
    (.cons "b".data (.plist (.cons (.pstr "x\n".data) (.cons .pnone .nil)))
      .nil)))) := by decide

/-- Parser sanity against CPython: a leading zero is a parse error (the
input falls back to a string in `RedisCache.get`), a fraction parses to
an untracked float, and so do `Infinity` and an unpaired surrogate
escape; a surrogate pair decodes to one astral character. -/
example : pyLoads "05".data = none ∧
    pyLoads "1.5".data = some none ∧
    pyLoads "-1.5e-3".data = some none ∧
    pyLoads "Infinity".data = some none ∧
    pyLoads "-Infinity".data = some none ∧
    pyLoads "NaN".data = some none ∧
    pyLoads "1.".data = none ∧
    pyLoads "1e".data = none ∧
    pyLoads "\"\\ud800\"".data = some none ∧
    pyLoads "\"\\ud83d\\ude00\"".data =
      some (some (.pstr [Char.ofNat 128512])) ∧
    pyLoads ['"', Char.ofNat 10, '"'] = none ∧
    pyLoads "\x7b\"a\": 1, \"a\": 2\x7d".data =
      some (some (.pdict (.cons "a".data (.pint 2) .nil))) := by
  refine ⟨?_, ?_, ?_, ?_, ?_, ?_, ?_, ?_, ?_, ?_, ?_, ?_⟩ <;> decide

/-! ### Round-trip of `dumps` and `pyLoads` (for C6) -/

mutual
/-- Node count of a value (bounds the parser fuel). -/
def jsize : PyVal → Nat
  | .pnone => 1
  | .pbool _ => 1
  | .pint _ => 1
  | .pstr _ => 1
  | .plist xs => 1 + jsizeSeq xs
  | .pdict es => 1 + jsizeMap es
/-- Node count of an array tail. -/
def jsizeSeq : PyValSeq → Nat
  | .nil => 0
  | .cons v vs => 1 + jsize v + jsizeSeq vs
/-- Node count of an object tail. -/
def jsizeMap : PyValMap → Nat
  | .nil => 0
  | .cons _ v es => 1 + jsize v + jsizeMap es
end

theorem jsize_pos (v : PyVal) : 0 < jsize v := by
  cases v <;> simp [jsize]

/-- The valid-range facts carried by every `Char`. -/
theorem charToNat_valid (c : Char) :
    c.toNat < 1114112 ∧ (c.toNat < 55296 ∨ 57344 ≤ c.toNat) := by
  rcases c.valid with h | ⟨h1, h2⟩
  · have hh : c.val.toNat < 55296 := h
    exact ⟨by show c.val.toNat < 1114112; omega, Or.inl hh⟩
  · have ha : 57343 < c.val.toNat := h1
    have hb : c.val.toNat < 1114112 := h2
    exact ⟨hb, Or.inr (by show 57344 ≤ c.val.toNat; omega)⟩

/-- `toNat` of `Char.ofNat` at a valid code point. -/
theorem toNat_charOfNat {n : Nat} (h : n < 55296) : (Char.ofNat n).toNat = n := by
  have hv : n.isValidChar := Or.inl h
  simp [Char.ofNat, hv, Char.toNat, Char.ofNatAux]
  rfl

theorem toNat_digitChar {n : Nat} (h : n < 10) : (digitChar n).toNat = 48 + n := by
  simp [digitChar, toNat_charOfNat (show 48 + n < 55296 by omega)]

theorem isDigitChar_digitChar {n : Nat} (h : n < 10) :
    isDigitChar (digitChar n) = true := by
  simp [isDigitChar, toNat_digitChar h]
  omega

/-- The digit run rendered by `natDecimalAux` is made of digits, is
non-empty, and folds back to the number. -/
theorem natDecimalAux_spec :
    ∀ (fuel n : Nat), n < 10 ^ (fuel + 1) →
      (natDecimalAux (fuel + 1) n).all isDigitChar = true ∧
      natDecimalAux (fuel + 1) n ≠ [] ∧
      (natDecimalAux (fuel + 1) n).foldl (fun a c => a * 10 + (c.toNat - 48)) 0 = n := by
  intro fuel
  induction fuel with
  | zero =>
    intro n h
    have hn : n < 10 := by simpa using h
    refine ⟨?_, ?_, ?_⟩ <;> simp [natDecimalAux, hn, isDigitChar_digitChar hn]
    simp [toNat_digitChar hn]
  | succ fuel ih =>
    intro n h
    by_cases hn : n < 10
    · refine ⟨?_, ?_, ?_⟩ <;> simp [natDecimalAux, hn, isDigitChar_digitChar hn]
      simp [toNat_digitChar hn]
    · have hdiv : n / 10 < 10 ^ (fuel + 1) := by
        rw [Nat.div_lt_iff_lt_mul (by norm_num)]
        calc n < 10 ^ (fuel + 1 + 1) := h
        _ = 10 ^ (fuel + 1) * 10 := by ring
      obtain ⟨hall, hne, hval⟩ := ih (n / 10) hdiv
      have hmod : n % 10 < 10 := Nat.mod_lt _ (by norm_num)
      have hstep : natDecimalAux (fuel + 1 + 1) n =
          natDecimalAux (fuel + 1) (n / 10) ++ [digitChar (n % 10)] := by
        rw [natDecimalAux, if_neg hn]
      refine ⟨?_, ?_, ?_⟩
      · rw [hstep]
        simp [List.all_append, hall, isDigitChar_digitChar hmod]
      · rw [hstep]
        simp
      · rw [hstep]
        simp only [List.foldl_append, hval, List.foldl_cons, List.foldl_nil,
          toNat_digitChar hmod]
        omega

/-- Digit facts for `natDecimal`. -/
theorem natDecimal_spec (n : Nat) :
    (natDecimal n).all isDigitChar = true ∧
    natDecimal n ≠ [] ∧
    (natDecimal n).foldl (fun a c => a * 10 + (c.toNat - 48)) 0 = n :=
  natDecimalAux_spec n n
    (lt_of_lt_of_le (Nat.lt_pow_self (by norm_num) n)
      (Nat.pow_le_pow_right (by norm_num) (Nat.le_succ n)))

/-- `True` when the input cannot extend a preceding number literal: it
does not begin with a decimal digit (the run before it would leak in),
nor with `.`, `e` or `E` (a fraction or exponent would start). -/
def noDigitHead : PyStr → Bool
  | [] => true
  | c :: _ => !(isDigitChar c || c = '.' || c = 'e' || c = 'E')

/-- Unpack the head conditions of `noDigitHead`. -/
theorem noDigitHead_head {c : Char} {s : PyStr}
    (h : noDigitHead (c :: s) = true) :
    isDigitChar c = false ∧ c ≠ '.' ∧ c ≠ 'e' ∧ c ≠ 'E' := by
  simp only [noDigitHead, Bool.not_eq_true', Bool.or_eq_false_iff,
    decide_eq_false_iff_not] at h
  exact ⟨h.1.1.1, h.1.1.2, h.1.2, h.2⟩

/-- The digit accumulator consumes exactly a digit run followed by a
non-digit boundary. -/
theorem parseDigitsAux_spec :
    ∀ (ds rest : PyStr) (acc : Nat), ds.all isDigitChar = true →
      noDigitHead rest = true →
      parseDigitsAux (ds ++ rest) acc =
        (ds.foldl (fun a c => a * 10 + (c.toNat - 48)) acc, rest) := by
  intro ds
  induction ds with
  | nil =>
    intro rest acc _ hrest
    cases rest with
    | nil => rfl
    | cons c cs =>
      obtain ⟨hd, -, -, -⟩ := noDigitHead_head hrest
      simp [parseDigitsAux, hd]
  | cons d ds ih =>
    intro rest acc hall hrest
    simp only [List.all_cons, Bool.and_eq_true] at hall
    simp [parseDigitsAux, hall.1, ih rest _ hall.2 hrest]

theorem char_toNat_ne {c d : Char} (h : c.toNat ≠ d.toNat) : c ≠ d :=
  fun he => h (he ▸ rfl)

theorem skipWs_cons_of_not_ws {c : Char} {s : PyStr} (h : isJsonWs c = false) :
    skipWs (c :: s) = c :: s := by
  simp [skipWs, h]

theorem digit_bounds {c : Char} (h : isDigitChar c = true) :
    48 ≤ c.toNat ∧ c.toNat ≤ 57 := by
  simpa [isDigitChar] using h

theorem digit_not_ws {c : Char} (h : isDigitChar c = true) : isJsonWs c = false := by
  obtain ⟨h1, h2⟩ := digit_bounds h
  have w1 : c ≠ ' ' := char_toNat_ne (show c.toNat ≠ 32 by omega)
  have w2 : c ≠ '\t' := char_toNat_ne (show c.toNat ≠ 9 by omega)
  have w3 : c ≠ '\n' := char_toNat_ne (show c.toNat ≠ 10 by omega)
  have w4 : c ≠ '\r' := char_toNat_ne (show c.toNat ≠ 13 by omega)
  simp [isJsonWs, w1, w2, w3, w4]

/-- The leading digit of the rendering of a positive number is not
`0`. -/
theorem natDecimalAux_head_pos :
    ∀ (fuel n : Nat), 0 < n → n < 10 ^ (fuel + 1) →
      ∃ d tl, 0 < d ∧ d < 10 ∧ natDecimalAux (fuel + 1) n = digitChar d :: tl := by
  intro fuel
  induction fuel with
  | zero =>
    intro n hn h
    have h10 : n < 10 := by simpa using h
    exact ⟨n, [], hn, h10, by rw [natDecimalAux, if_pos h10]⟩
  | succ fuel ih =>
    intro n hn h
    by_cases h10 : n < 10
    · exact ⟨n, [], hn, h10, by rw [natDecimalAux, if_pos h10]⟩
    · have hdiv : n / 10 < 10 ^ (fuel + 1) := by
        rw [Nat.div_lt_iff_lt_mul (by norm_num)]
        calc n < 10 ^ (fuel + 1 + 1) := h
        _ = 10 ^ (fuel + 1) * 10 := by ring
      have hpos : 0 < n / 10 := Nat.div_pos (by omega) (by norm_num)
      obtain ⟨d, tl, hd0, hd9, heq⟩ := ih (n / 10) hpos hdiv
      exact ⟨d, tl ++ [digitChar (n % 10)], hd0, hd9, by
        rw [natDecimalAux, if_neg h10, heq, List.cons_append]⟩

/-- `natDecimal` never renders a leading-zero digit run (`0` itself is
the single digit `0`), so the scanner's leading-zero rejection does not
fire on it. -/
theorem leadingZeroRun_natDecimal (m : Nat) (rest : PyStr)
    (hrest : noDigitHead rest = true) :
    leadingZeroRun (natDecimal m ++ rest) = false := by
  by_cases h10 : m < 10
  · have hone : natDecimal m = [digitChar m] := by
      rw [natDecimal, natDecimalAux, if_pos h10]
    rw [hone]
    cases rest with
    | nil => simp [leadingZeroRun]
    | cons d ds =>
      obtain ⟨hd, -, -, -⟩ := noDigitHead_head hrest
      simp [leadingZeroRun, hd]
  · obtain ⟨d, tl, hd0, hd9, heq⟩ := natDecimalAux_head_pos m m (by omega)
      (lt_of_lt_of_le (Nat.lt_pow_self (by norm_num) m)
        (Nat.pow_le_pow_right (by norm_num) (Nat.le_succ m)))
    have heq2 : natDecimal m = digitChar d :: tl := heq
    have hne : digitChar d ≠ '0' :=
      char_toNat_ne (by
        rw [toNat_digitChar hd9, show '0'.toNat = 48 from rfl]
        omega)
    rw [heq2, List.cons_append]
    simp [leadingZeroRun, hne]

/-- A fenced continuation has no exponent part. -/
theorem parseExpTail_noNum (rest : PyStr) (hrest : noDigitHead rest = true) :
    parseExpTail rest = .intOnly := by
  cases rest with
  | nil => rfl
  | cons c r =>
    obtain ⟨-, -, he, hE⟩ := noDigitHead_head hrest
    simp only [parseExpTail]
    rw [if_neg (not_or.mpr ⟨he, hE⟩)]

/-- A fenced continuation has no fraction or exponent part, so a
preceding number literal is an integer. -/
theorem parseFracExpTail_noNum (rest : PyStr) (hrest : noDigitHead rest = true) :
    parseFracExpTail rest = .intOnly := by
  cases rest with
  | nil => rfl
  | cons c r =>
    obtain ⟨-, hdot, -, -⟩ := noDigitHead_head hrest
    simp only [parseFracExpTail]
    rw [if_neg hdot]
    exact parseExpTail_noNum (c :: r) hrest

theorem parseValue_nat (fuel m : Nat) (rest : PyStr)
    (hrest : noDigitHead rest = true) :
    parseValue (fuel + 1) (natDecimal m ++ rest) =
      some (some (.pint (m : Int)), rest) := by
  obtain ⟨hall, hne, hval⟩ := natDecimal_spec m
  obtain ⟨c, cs, hcons⟩ := List.exists_cons_of_ne_nil hne
  have hdig : isDigitChar c = true := by
    rw [hcons, List.all_cons, Bool.and_eq_true] at hall
    exact hall.1
  obtain ⟨h48, h57⟩ := digit_bounds hdig
  have hpd : parseDigitsAux (natDecimal m ++ rest) 0 = (m, rest) := by
    rw [parseDigitsAux_spec (natDecimal m) rest 0 (natDecimal_spec m).1 hrest, hval]
  have hlz : leadingZeroRun (natDecimal m ++ rest) = false :=
    leadingZeroRun_natDecimal m rest hrest
  rw [hcons] at hpd hlz ⊢
  rw [List.cons_append] at hpd hlz
  have hlzn : ¬(leadingZeroRun (c :: (cs ++ rest)) = true) := by
    rw [hlz]; simp
  simp only [List.cons_append, parseValue,
    skipWs_cons_of_not_ws (digit_not_ws hdig)]
  rw [if_neg (char_toNat_ne (show c.toNat ≠ 34 by omega)),
    if_neg (char_toNat_ne (show c.toNat ≠ 91 by omega)),
    if_neg (char_toNat_ne (show c.toNat ≠ 123 by omega)),
    if_neg (char_toNat_ne (show c.toNat ≠ 110 by omega)),
    if_neg (char_toNat_ne (show c.toNat ≠ 116 by omega)),
    if_neg (char_toNat_ne (show c.toNat ≠ 102 by omega)),
    if_neg (char_toNat_ne (show c.toNat ≠ 73 by omega)),
    if_neg (char_toNat_ne (show c.toNat ≠ 78 by omega)),
    if_neg (char_toNat_ne (show c.toNat ≠ 45 by omega)),
    if_pos hdig, if_neg hlzn, hpd]
  dsimp only
  rw [parseFracExpTail_noNum rest hrest]

theorem parseValue_int (fuel : Nat) (n : Int) (rest : PyStr)
    (hrest : noDigitHead rest = true) :
    parseValue (fuel + 1) (intDecimal n ++ rest) =
      some (some (.pint n), rest) := by
  by_cases hneg : n < 0
  · obtain ⟨hall, hne, hval⟩ := natDecimal_spec n.natAbs
    obtain ⟨c, cs, hcons⟩ := List.exists_cons_of_ne_nil hne
    have hdig : isDigitChar c = true := by
      rw [hcons, List.all_cons, Bool.and_eq_true] at hall
      exact hall.1
    obtain ⟨h48, h57⟩ := digit_bounds hdig
    have hpd : parseDigitsAux (natDecimal n.natAbs ++ rest) 0 = (n.natAbs, rest) := by
      rw [parseDigitsAux_spec _ rest 0 (natDecimal_spec n.natAbs).1 hrest, hval]
    have hlz : leadingZeroRun (natDecimal n.natAbs ++ rest) = false :=
      leadingZeroRun_natDecimal n.natAbs rest hrest
    have hsplit : intDecimal n ++ rest = '-' :: (natDecimal n.natAbs ++ rest) := by
      rw [intDecimal, if_pos hneg, List.cons_append]
    rw [hsplit, hcons, List.cons_append]
    rw [hcons, List.cons_append] at hpd hlz
    have hlzn : ¬(leadingZeroRun (c :: (cs ++ rest)) = true) := by
      rw [hlz]; simp
    have hmI : matchLit ['I', 'n', 'f', 'i', 'n', 'i', 't', 'y']
        (c :: (cs ++ rest)) = none := by
      simp only [matchLit]
      rw [if_neg (char_toNat_ne (show c.toNat ≠ 73 by omega))]
    simp only [parseValue, skipWs_cons_of_not_ws (show isJsonWs '-' = false by decide)]
    rw [if_neg (show ¬ ('-' = '"') by decide), if_neg (show ¬ ('-' = '[') by decide),
      if_neg (show ¬ ('-' = '\x7b') by decide), if_neg (show ¬ ('-' = 'n') by decide),
      if_neg (show ¬ ('-' = 't') by decide), if_neg (show ¬ ('-' = 'f') by decide),
      if_neg (show ¬ ('-' = 'I') by decide), if_neg (show ¬ ('-' = 'N') by decide)]
    simp only [reduceIte, show ("Infinity".data : PyStr) =
      ['I', 'n', 'f', 'i', 'n', 'i', 't', 'y'] from by decide, hmI]
    rw [if_pos hdig, if_neg hlzn, hpd]
    dsimp only
    rw [parseFracExpTail_noNum rest hrest]
    have habs : -((n.natAbs : Int)) = n := by omega
    rw [habs]
  · have hnn : (0 : Int) ≤ n := le_of_not_lt hneg
    rw [intDecimal, if_neg hneg, parseValue_nat fuel n.toNat rest hrest,
      Int.toNat_of_nonneg hnn]

theorem hexNibble_hexDigit : ∀ x, x < 16 → hexNibble (MD5.hexDigit x) = some x := by
  decide

/-- The string-body parser inverts the per-character JSON escaping,
given fuel above the input length (the parser consumes at least one
character per unit of fuel). -/
theorem parseStrBody_escape (s : PyStr) :
    ∀ (rest : PyStr) (fuel : Nat),
      ((s.map jsonEscapeChar).flatten ++ '"' :: rest).length < fuel →
      parseStrBody fuel ((s.map jsonEscapeChar).flatten ++ '"' :: rest) =
        some (some s, rest) := by
  induction s with
  | nil =>
    intro rest fuel hfuel
    obtain ⟨f, rfl⟩ : ∃ f, fuel = f + 1 := ⟨fuel - 1, by omega⟩
    simp only [List.map_nil, List.flatten_nil, List.nil_append]
    simp only [parseStrBody]
    simp
  | cons c cs ih =>
    intro rest fuel hfuel
    obtain ⟨f, rfl⟩ : ∃ f, fuel = f + 1 := ⟨fuel - 1, by omega⟩
    have hesc_ne : jsonEscapeChar c ≠ [] := by
      unfold jsonEscapeChar
      split
      · simp
      · split
        · simp
        · split
          · simp
          · split
            · simp
            · split
              · simp
              · split
                · simp
                · split
                  · simp
                  · split <;> simp
    have hlen : ((cs.map jsonEscapeChar).flatten ++ '"' :: rest).length < f := by
      have hp := List.length_pos.mpr hesc_ne
      simp only [List.map_cons, List.flatten_cons, List.append_assoc,
        List.length_append, List.length_cons] at hfuel ⊢
      omega
    have hih := ih rest f hlen
    by_cases h1 : c = '\"'
    · subst h1
      simp only [List.map_cons, List.flatten_cons, jsonEscapeChar, reduceIte,
        List.cons_append, List.append_assoc, List.nil_append]
      simp only [parseStrBody]
      simp +decide [escCode, hih]
    by_cases h2 : c = '\\'
    · subst h2
      simp only [List.map_cons, List.flatten_cons, jsonEscapeChar, reduceIte,
        List.cons_append, List.append_assoc, List.nil_append]
      simp only [parseStrBody]
      simp +decide [escCode, hih]
    by_cases h3 : c = '\x08'
    · subst h3
      simp only [List.map_cons, List.flatten_cons, jsonEscapeChar, reduceIte,
        List.cons_append, List.append_assoc, List.nil_append]
      simp only [parseStrBody]
      simp +decide [escCode, hih]
    by_cases h4 : c = '\t'
    · subst h4
      simp only [List.map_cons, List.flatten_cons, jsonEscapeChar, reduceIte,
        List.cons_append, List.append_assoc, List.nil_append]
      simp only [parseStrBody]
      simp +decide [escCode, hih]
    by_cases h5 : c = '\n'
    · subst h5
      simp only [List.map_cons, List.flatten_cons, jsonEscapeChar, reduceIte,
        List.cons_append, List.append_assoc, List.nil_append]
      simp only [parseStrBody]
      simp +decide [escCode, hih]
    by_cases h6 : c = '\x0c'
    · subst h6
      simp only [List.map_cons, List.flatten_cons, jsonEscapeChar, reduceIte,
        List.cons_append, List.append_assoc, List.nil_append]
      simp only [parseStrBody]
      simp +decide [escCode, hih]
    by_cases h7 : c = '\r'
    · subst h7
      simp only [List.map_cons, List.flatten_cons, jsonEscapeChar, reduceIte,
        List.cons_append, List.append_assoc, List.nil_append]
      simp only [parseStrBody]
      simp +decide [escCode, hih]
    by_cases h8 : c.toNat < 32
    · have hesc : jsonEscapeChar c =
          ['\\', 'u', '0', '0', MD5.hexDigit (c.toNat / 16), MD5.hexDigit (c.toNat % 16)] := by
        rw [jsonEscapeChar, if_neg h1, if_neg h2, if_neg h3, if_neg h4, if_neg h5,
          if_neg h6, if_neg h7, if_pos h8]
      simp only [List.map_cons, List.flatten_cons, hesc, List.cons_append,
        List.append_assoc, List.nil_append]
      simp only [parseStrBody]
      simp +decide only [show hexNibble '0' = some 0 from by decide,
        hexNibble_hexDigit (c.toNat / 16) (by omega),
        hexNibble_hexDigit (c.toNat % 16) (by omega), if_true, if_false]
      rw [if_neg (by omega), if_neg (by omega), hih]
      dsimp only [Option.map]
      rw [show ((0 * 16 + 0) * 16 + c.toNat / 16) * 16 + c.toNat % 16 = c.toNat by omega,
        Char.ofNat_toNat]
    · have hesc : jsonEscapeChar c = [c] := by
        rw [jsonEscapeChar, if_neg h1, if_neg h2, if_neg h3, if_neg h4, if_neg h5,
          if_neg h6, if_neg h7, if_neg h8]
      simp only [List.map_cons, List.flatten_cons, hesc, List.cons_append,
        List.append_assoc, List.nil_append]
      simp only [parseStrBody]
      rw [if_neg h1, if_neg h2, if_neg h8, hih]
      dsimp only [Option.map]

theorem skipWs_cons_ws {w : Char} {s : PyStr} (h : isJsonWs w = true) :
    skipWs (w :: s) = skipWs s := by
  simp [skipWs, h]

theorem parseValue_ws {w : Char} (h : isJsonWs w = true) (f : Nat) (hf : 0 < f)
    (s : PyStr) : parseValue f (w :: s) = parseValue f s := by
  obtain ⟨f2, rfl⟩ : ∃ f2, f = f2 + 1 := ⟨f - 1, by omega⟩
  simp only [parseValue, skipWs_cons_ws h]

/-- Every serialised value starts with a character that is not
whitespace, not a closing bracket and not a closing brace. -/
theorem dumps_head (v : PyVal) :
    ∃ c cs, dumps v = c :: cs ∧ isJsonWs c = false ∧ c ≠ ']' ∧ c ≠ '\x7d' := by
  cases v with
  | pnone => exact ⟨'n', ['u', 'l', 'l'], by decide, by decide, by decide, by decide⟩
  | pbool b =>
    cases b with
    | true => exact ⟨'t', ['r', 'u', 'e'], by decide, by decide, by decide, by decide⟩
    | false => exact ⟨'f', ['a', 'l', 's', 'e'], by decide, by decide, by decide, by decide⟩
  | pint n =>
    by_cases hneg : n < 0
    · refine ⟨'-', natDecimal n.natAbs, ?_, by decide, by decide, by decide⟩
      simp [dumps, intDecimal, hneg]
    · obtain ⟨hall, hne, _⟩ := natDecimal_spec n.toNat
      obtain ⟨c, cs, hcons⟩ := List.exists_cons_of_ne_nil hne
      have hdig : isDigitChar c = true := by
        rw [hcons, List.all_cons, Bool.and_eq_true] at hall
        exact hall.1
      obtain ⟨h48, h57⟩ := digit_bounds hdig
      refine ⟨c, cs, ?_, digit_not_ws hdig,
        char_toNat_ne (show c.toNat ≠ 93 by omega),
        char_toNat_ne (show c.toNat ≠ 125 by omega)⟩
      simp [dumps, intDecimal, hneg, hcons]
  | pstr s =>
    refine ⟨'"', (s.map jsonEscapeChar).flatten ++ ['"'], ?_, by decide, by decide, by decide⟩
    simp [dumps, jsonQuote]
  | plist xs =>
    cases xs with
    | nil => exact ⟨'[', [']'], by decide, by decide, by decide, by decide⟩
    | cons v vs =>
      refine ⟨'[', dumps v ++ dumpsSeqTail vs ++ [']'], ?_, by decide, by decide, by decide⟩
      simp [dumps]
  | pdict es =>
    cases es with
    | nil => exact ⟨'\x7b', ['\x7d'], by decide, by decide, by decide, by decide⟩
    | cons k v es =>
      refine ⟨'\x7b', jsonQuote k ++ ':' :: ' ' :: dumps v ++ dumpsMapTail es ++ ['\x7d'],
        ?_, by decide, by decide, by decide⟩
      simp [dumps]

/-- The continuation after an element inside an array is fenced by a
comma or the closing bracket, never a digit. -/
theorem noDigitHead_seqTail (vs : PyValSeq) (rest : PyStr) :
    noDigitHead (dumpsSeqTail vs ++ ']' :: rest) = true := by
  cases vs with
  | nil => simp +decide [dumpsSeqTail, noDigitHead, isDigitChar]
  | cons v vs => simp +decide [dumpsSeqTail, noDigitHead, isDigitChar]

/-- The continuation after a member value inside an object is fenced by
a comma or the closing brace, never a digit. -/
theorem noDigitHead_mapTail (es : PyValMap) (rest : PyStr) :
    noDigitHead (dumpsMapTail es ++ '\x7d' :: rest) = true := by
  cases es with
  | nil => simp +decide [dumpsMapTail, noDigitHead, isDigitChar]
  | cons k v es => simp +decide [dumpsMapTail, noDigitHead, isDigitChar]

/-- Prepending a member whose key is absent from the later members is
a plain `cons`. -/
theorem dictInsert_fresh (k : PyStr) (v : PyVal) (es : PyValMap)
    (h : mapLookup k es = none) : dictInsert k v es = .cons k v es := by
  unfold dictInsert
  rw [h]

mutual
/-- The parser inverts `dumps` on any well-formed value (distinct
object keys at every level) and non-number-fenced continuation, given
fuel above the value's node count. -/
theorem parseValue_dumps (v : PyVal) (fuel : Nat) (rest : PyStr)
    (hwf : wfVal v = true) (hfuel : jsize v < fuel)
    (hrest : noDigitHead rest = true) :
    parseValue fuel (dumps v ++ rest) = some (some v, rest) := by
  obtain ⟨f, rfl⟩ : ∃ f, fuel = f + 1 :=
    ⟨fuel - 1, by have := jsize_pos v; omega⟩
  cases v with
  | pnone =>
    simp +decide [dumps, parseValue, matchLit,
      show ("null".data : PyStr) = ['n', 'u', 'l', 'l'] by decide,
      skipWs_cons_of_not_ws (show isJsonWs 'n' = false by decide)]
  | pbool b =>
    cases b with
    | true =>
      simp +decide [dumps, parseValue, matchLit,
        show ("true".data : PyStr) = ['t', 'r', 'u', 'e'] by decide,
        skipWs_cons_of_not_ws (show isJsonWs 't' = false by decide)]
    | false =>
      simp +decide [dumps, parseValue, matchLit,
        show ("false".data : PyStr) = ['f', 'a', 'l', 's', 'e'] by decide,
        skipWs_cons_of_not_ws (show isJsonWs 'f' = false by decide)]
  | pint n =>
    simp only [dumps]
    exact parseValue_int f n rest hrest
  | pstr s =>
    simp only [dumps, jsonQuote, List.cons_append, List.append_assoc,
      List.singleton_append, List.nil_append]
    simp +decide only [parseValue,
      skipWs_cons_of_not_ws (show isJsonWs '"' = false by decide),
      if_true, if_false]
    rw [parseStrBody_escape s rest
      (((s.map jsonEscapeChar).flatten ++ '"' :: rest).length + 1)
      (Nat.lt_succ_self _)]
    dsimp only [Option.map]
  | plist xs =>
    cases xs with
    | nil =>
      simp +decide [dumps, parseValue,
        show ("[]".data : PyStr) = ['[', ']'] by decide,
        skipWs_cons_of_not_ws (show isJsonWs '[' = false by decide),
        skipWs_cons_of_not_ws (show isJsonWs ']' = false by decide)]
    | cons v vs =>
      have hwf' : wfVal v = true ∧ wfSeq vs = true := by
        simpa [wfVal, wfSeq, Bool.and_eq_true] using hwf
      obtain ⟨c, cs, hd, hws, hbr, _⟩ := dumps_head v
      have hsz : jsize (.plist (.cons v vs)) = 2 + jsize v + jsizeSeq vs := by
        simp [jsize, jsizeSeq]; omega
      have hv := parseValue_dumps v f (dumpsSeqTail vs ++ ']' :: rest)
        hwf'.1 (by rw [hsz] at hfuel; omega) (noDigitHead_seqTail vs rest)
      have hvs := parseSeqTail_dumps vs f rest hwf'.2 (by rw [hsz] at hfuel; omega)
      simp only [dumps, List.cons_append, List.append_assoc, List.nil_append]
      simp +decide only [parseValue,
        skipWs_cons_of_not_ws (show isJsonWs '[' = false by decide), if_true,
        if_false, List.nil_append]
      rw [show dumps v ++ (dumpsSeqTail vs ++ ']' :: rest) =
        c :: (cs ++ (dumpsSeqTail vs ++ ']' :: rest)) by rw [hd, List.cons_append],
        skipWs_cons_of_not_ws hws]
      split
      · rename_i heq
        rw [List.cons.injEq] at heq
        exact absurd heq.1 hbr
      · rw [← List.cons_append, ← hd, hv]
        simp only [hvs]
  | pdict es =>
    cases es with
    | nil =>
      simp +decide [dumps, parseValue,
        skipWs_cons_of_not_ws (show isJsonWs '\x7b' = false by decide),
        skipWs_cons_of_not_ws (show isJsonWs '\x7d' = false by decide)]
    | cons k v es =>
      have hwf' : (mapLookup k es = none ∧ wfVal v = true) ∧
          wfMap es = true := by
        simpa [wfVal, wfMap, Bool.and_eq_true, Bool.not_eq_true'] using hwf
      have hsz : jsize (.pdict (.cons k v es)) = 2 + jsize v + jsizeMap es := by
        simp [jsize, jsizeMap]; omega
      have hv := parseValue_dumps v f (dumpsMapTail es ++ '\x7d' :: rest)
        hwf'.1.2 (by rw [hsz] at hfuel; omega) (noDigitHead_mapTail es rest)
      have hes := parseMapTail_dumps es f rest hwf'.2 (by rw [hsz] at hfuel; omega)
      have hfpos : 0 < f := by rw [hsz] at hfuel; have := jsize_pos v; omega
      simp only [dumps, jsonQuote, List.cons_append, List.append_assoc,
        List.singleton_append, List.nil_append]
      simp +decide only [parseValue,
        skipWs_cons_of_not_ws (show isJsonWs '\x7b' = false by decide),
        skipWs_cons_of_not_ws (show isJsonWs '"' = false by decide),
        if_true, if_false, List.nil_append]
      rw [parseStrBody_escape k
        (':' :: ' ' :: (dumps v ++ (dumpsMapTail es ++ '\x7d' :: rest)))
        (((k.map jsonEscapeChar).flatten ++
          '"' :: ':' :: ' ' :: (dumps v ++ (dumpsMapTail es ++ '\x7d' :: rest))).length + 1)
        (Nat.lt_succ_self _)]
      simp +decide only [skipWs_cons_of_not_ws (show isJsonWs ':' = false by decide),
        if_true, if_false]
      rw [parseValue_ws (show isJsonWs ' ' = true by decide) f hfpos, hv]
      simp only [hes, dictInsert_fresh k v es hwf'.1.1]
/-- The array-tail parser inverts `dumpsSeqTail` followed by `]`. -/
theorem parseSeqTail_dumps (vs : PyValSeq) (fuel : Nat) (rest : PyStr)
    (hwf : wfSeq vs = true) (hfuel : jsizeSeq vs < fuel) :
    parseSeqTail fuel (dumpsSeqTail vs ++ ']' :: rest) = some (some vs, rest) := by
  obtain ⟨f, rfl⟩ : ∃ f, fuel = f + 1 := ⟨fuel - 1, by omega⟩
  cases vs with
  | nil =>
    simp +decide [dumpsSeqTail, parseSeqTail,
      skipWs_cons_of_not_ws (show isJsonWs ']' = false by decide)]
  | cons v vs =>
    have hwf' : wfVal v = true ∧ wfSeq vs = true := by
      simpa [wfSeq, Bool.and_eq_true] using hwf
    have hsz : jsizeSeq (.cons v vs) = 1 + jsize v + jsizeSeq vs := by
      simp [jsizeSeq]
    have hv := parseValue_dumps v f (dumpsSeqTail vs ++ ']' :: rest)
      hwf'.1 (by rw [hsz] at hfuel; omega) (noDigitHead_seqTail vs rest)
    have hvs := parseSeqTail_dumps vs f rest hwf'.2 (by rw [hsz] at hfuel; omega)
    have hfpos : 0 < f := by rw [hsz] at hfuel; have := jsize_pos v; omega
    simp only [dumpsSeqTail, List.cons_append, List.append_assoc, List.nil_append]
    simp +decide only [parseSeqTail,
      skipWs_cons_of_not_ws (show isJsonWs ',' = false by decide), if_true,
      if_false, List.nil_append]
    rw [parseValue_ws (show isJsonWs ' ' = true by decide) f hfpos, hv]
    simp only [hvs]
/-- The object-tail parser inverts `dumpsMapTail` followed by the
closing brace, on distinct keys. -/
theorem parseMapTail_dumps (es : PyValMap) (fuel : Nat) (rest : PyStr)
    (hwf : wfMap es = true) (hfuel : jsizeMap es < fuel) :
    parseMapTail fuel (dumpsMapTail es ++ '\x7d' :: rest) = some (some es, rest) := by
  obtain ⟨f, rfl⟩ : ∃ f, fuel = f + 1 := ⟨fuel - 1, by omega⟩
  cases es with
  | nil =>
    simp +decide [dumpsMapTail, parseMapTail,
      skipWs_cons_of_not_ws (show isJsonWs '\x7d' = false by decide)]
  | cons k v es =>
    have hwf' : (mapLookup k es = none ∧ wfVal v = true) ∧
        wfMap es = true := by
      simpa [wfMap, Bool.and_eq_true, Bool.not_eq_true'] using hwf
    have hsz : jsizeMap (.cons k v es) = 1 + jsize v + jsizeMap es := by
      simp [jsizeMap]
    have hv := parseValue_dumps v f (dumpsMapTail es ++ '\x7d' :: rest)
      hwf'.1.2 (by rw [hsz] at hfuel; omega) (noDigitHead_mapTail es rest)
    have hes := parseMapTail_dumps es f rest hwf'.2 (by rw [hsz] at hfuel; omega)
    have hfpos : 0 < f := by rw [hsz] at hfuel; have := jsize_pos v; omega
    simp only [dumpsMapTail, jsonQuote, List.cons_append, List.append_assoc,
      List.singleton_append, List.nil_append]
    simp +decide only [parseMapTail,
      skipWs_cons_of_not_ws (show isJsonWs ',' = false by decide),
      skipWs_cons_ws (show isJsonWs ' ' = true by decide),
      skipWs_cons_of_not_ws (show isJsonWs '"' = false by decide),
      if_true, if_false, List.nil_append]
    rw [parseStrBody_escape k
      (':' :: ' ' :: (dumps v ++ (dumpsMapTail es ++ '\x7d' :: rest)))
      (((k.map jsonEscapeChar).flatten ++
        '"' :: ':' :: ' ' :: (dumps v ++ (dumpsMapTail es ++ '\x7d' :: rest))).length + 1)
      (Nat.lt_succ_self _)]
    simp +decide only [skipWs_cons_of_not_ws (show isJsonWs ':' = false by decide),
      if_true, if_false]
    rw [parseValue_ws (show isJsonWs ' ' = true by decide) f hfpos, hv]
    simp only [hes, dictInsert_fresh k v es hwf'.1.1]
end

mutual
/-- A value never has more nodes than serialised characters. -/
theorem jsize_le_dumps_length (v : PyVal) : jsize v ≤ (dumps v).length := by
  cases v with
  | pnone => decide
  | pbool b => cases b <;> decide
  | pint n =>
    have h : intDecimal n ≠ [] := by
      unfold intDecimal
      split
      · simp
      · exact (natDecimal_spec _).2.1
    have := List.length_pos.mpr h
    simpa [jsize, dumps] using this
  | pstr s => simp [jsize, dumps, jsonQuote]
  | plist xs =>
    cases xs with
    | nil => decide
    | cons v vs =>
      have h1 := jsize_le_dumps_length v
      have h2 := jsizeSeq_le_length vs
      simp only [jsize, jsizeSeq, dumps, List.length_cons, List.length_append]
      omega
  | pdict es =>
    cases es with
    | nil => decide
    | cons k v es =>
      have h1 := jsize_le_dumps_length v
      have h2 := jsizeMap_le_length es
      simp only [jsize, jsizeMap, dumps, List.length_cons, List.length_append]
      omega
/-- An array tail never has more nodes than serialised characters. -/
theorem jsizeSeq_le_length (vs : PyValSeq) : jsizeSeq vs ≤ (dumpsSeqTail vs).length := by
  cases vs with
  | nil => decide
  | cons v vs =>
    have h1 := jsize_le_dumps_length v
    have h2 := jsizeSeq_le_length vs
    simp only [jsizeSeq, dumpsSeqTail, List.length_cons, List.length_append]
    omega
/-- An object tail never has more nodes than serialised characters. -/
theorem jsizeMap_le_length (es : PyValMap) : jsizeMap es ≤ (dumpsMapTail es).length := by
  cases es with
  | nil => decide
  | cons k v es =>
    have h1 := jsize_le_dumps_length v
    have h2 := jsizeMap_le_length es
    simp only [jsizeMap, dumpsMapTail, List.length_cons, List.length_append]
    omega
end

/-- `json.loads` inverts `json.dumps` on every well-formed value of
the model (a Python object cannot hold a duplicated `dict` key, which
is what `wfVal` states). -/
theorem pyLoads_dumps (v : PyVal) (hwf : wfVal v = true) :
    pyLoads (dumps v) = some (some v) := by
  unfold pyLoads
  have h := parseValue_dumps v ((dumps v).length + 1) [] hwf
    (by have := jsize_le_dumps_length v; omega) rfl
  rw [List.append_nil] at h
  rw [h]
  rfl

set_option maxRecDepth 4000 in
/-- UTF-8 decoding inverts UTF-8 encoding on every string. -/
theorem utf8Decode_encode (s : PyStr) : utf8Decode (utf8Encode s) = some s := by
  induction s with
  | nil => rfl
  | cons c cs ih =>
    have hcons : utf8Encode (c :: cs) = utf8EncodeChar c ++ utf8Encode cs := by
      simp [utf8Encode]
    obtain ⟨hmax, hsur⟩ := charToNat_valid c
    rw [hcons]
    by_cases h1 : c.toNat < 128
    · rw [show utf8EncodeChar c = [c.toNat] by simp [utf8EncodeChar, h1]]
      simp only [List.cons_append, List.nil_append]
      rw [utf8Decode.eq_def]
      dsimp only
      rw [if_pos h1, ih]
      simp [Char.ofNat_toNat]
    by_cases h2 : c.toNat < 2048
    · rw [show utf8EncodeChar c = [192 + c.toNat / 64, 128 + c.toNat % 64] by
        simp [utf8EncodeChar, h1, h2]]
      simp only [List.cons_append, List.nil_append]
      rw [utf8Decode.eq_def]
      dsimp only
      rw [if_neg (by omega), if_pos (by omega), if_pos (by
        refine ⟨by omega, by omega, by omega⟩), if_pos (by omega), ih]
      have hA : (192 + c.toNat / 64 - 192) * 64 + (128 + c.toNat % 64 - 128) = c.toNat := by
        omega
      dsimp only [Option.map]
      rw [hA, Char.ofNat_toNat]
    by_cases h3 : c.toNat < 65536
    · rw [show utf8EncodeChar c =
          [224 + c.toNat / 4096, 128 + c.toNat / 64 % 64, 128 + c.toNat % 64] by
        simp [utf8EncodeChar, h1, h2, h3]]
      simp only [List.cons_append, List.nil_append]
      rw [utf8Decode.eq_def]
      dsimp only
      rw [if_neg (by omega), if_neg (by omega), if_pos (by omega),
        if_pos (by refine ⟨by omega, by omega, by omega, by omega⟩),
        if_pos (by constructor
                   · omega
                   · rcases hsur with h | h
                     · left; omega
                     · right; omega), ih]
      have hA : (224 + c.toNat / 4096 - 224) * 4096 + (128 + c.toNat / 64 % 64 - 128) * 64 +
          (128 + c.toNat % 64 - 128) = c.toNat := by omega
      dsimp only [Option.map]
      rw [hA, Char.ofNat_toNat]
    · rw [show utf8EncodeChar c =
          [240 + c.toNat / 262144, 128 + c.toNat / 4096 % 64, 128 + c.toNat / 64 % 64,
           128 + c.toNat % 64] by simp [utf8EncodeChar, h1, h2, h3]]
      simp only [List.cons_append, List.nil_append]
      rw [utf8Decode.eq_def]
      dsimp only
      rw [if_neg (by omega), if_neg (by omega), if_neg (by omega),
        if_pos (by refine ⟨by omega, by omega, by omega, by omega, by omega, by omega,
          by omega⟩),
        if_pos (by constructor <;> omega), ih]
      have hA : (240 + c.toNat / 262144 - 240) * 262144 + (128 + c.toNat / 4096 % 64 - 128) *
          4096 + (128 + c.toNat / 64 % 64 - 128) * 64 + (128 + c.toNat % 64 - 128) =
          c.toNat := by omega
      dsimp only [Option.map]
      rw [hA, Char.ofNat_toNat]

/-! ### C6: the remote-cache round-trip -/

/-- A character always encodes to at least one byte. -/
theorem utf8EncodeChar_ne_nil (c : Char) : utf8EncodeChar c ≠ [] := by
  unfold utf8EncodeChar
  dsimp only
  split
  · simp
  · split
    · simp
    · split <;> simp

/-- A non-empty string encodes to a non-empty byte string. -/
theorem utf8Encode_ne_nil (c : Char) (cs : PyStr) : utf8Encode (c :: cs) ≠ [] := by
  intro h
  have h2 : utf8EncodeChar c ++ (List.map utf8EncodeChar cs).flatten = [] := by
    simpa [utf8Encode] using h
  rcases List.append_eq_nil.mp h2 with ⟨h1, -⟩
  exact utf8EncodeChar_ne_nil c h1

/-- `json.dumps` output is never empty. -/
theorem dumps_ne_nil (v : PyVal) : dumps v ≠ [] := by
  obtain ⟨c, cs, hd, -, -, -⟩ := dumps_head v
  rw [hd]
  simp

/-- On a non-string value the serialisation goes through `json.dumps`. -/
theorem encodeForRedis_not_pstr (v : PyVal) (hv : ∀ s, v ≠ .pstr s) :
    encodeForRedis v = utf8Encode (dumps v) := by
  cases v with
  | pstr s => exact absurd rfl (hv s)
  | pnone => rfl
  | pbool b => rfl
  | pint n => rfl
  | plist xs => rfl
  | pdict es => rfl

/-- Deserialisation inverts serialisation on `dumps` output of a
well-formed value. -/
theorem redisParse_dumps (v : PyVal) (hwf : wfVal v = true) :
    redisParse (utf8Encode (dumps v)) = some (.known v) := by
  unfold redisParse
  rw [utf8Decode_encode]
  dsimp only
  rw [pyLoads_dumps v hwf]

/-- A stored string on which `json.loads` raises a `JSONDecodeError`
comes back as itself. -/
theorem redisParse_str (s : PyStr) (hs : pyLoads s = none) :
    redisParse (utf8Encode s) = some (.known (.pstr s)) := by
  unfold redisParse
  rw [utf8Decode_encode]
  dsimp only
  rw [hs]

/-- Reading a key within the TTL after writing it, with the backend
available, yields the deserialisation of the stored bytes — or a miss
when zero bytes were stored. -/
theorem redis_get_after_set (srv : RedisServer) (key : String) (value : PyVal)
    (ttl : Int) (t t' : ℚ) (h : t' < t + (ttl : ℚ)) :
    RedisCache.get (some ()) (RedisCache.set (some ()) srv key value ttl t .ok).2
        key t' .ok =
      if encodeForRedis value ≠ [] then redisParse (encodeForRedis value) else none := by
  have hset : (RedisCache.set (some ()) srv key value ttl t .ok).2 =
      serverSetex srv key ttl (encodeForRedis value) t := rfl
  rw [hset]
  have hg : serverGet (serverSetex srv key ttl (encodeForRedis value) t) key t' =
      some (encodeForRedis value) := by
    unfold serverGet serverSetex
    dsimp only
    rw [assocGet_assocSet_self]
    dsimp only
    exact if_pos h
  unfold RedisCache.get
  dsimp only
  rw [hg]

/-- C6 counterexample: with the backend available and within the TTL,
writing the string `"5"` under a key and reading the key back returns
the integer `5`, not the string written — `RedisCache.get` feeds every
stored byte string to `json.loads` first, so a string that parses as a
JSON document does not round-trip, against the claim that every string
value round-trips. -/
theorem C6_roundtrip_counterexample :
    RedisCache.get (some ())
        (RedisCache.set (some ()) ⟨[]⟩ "k" (.pstr ['5']) 60 0 .ok).2 "k" 1 .ok
      = some (.known (.pint 5)) ∧ PyVal.pint 5 ≠ PyVal.pstr ['5'] := by
  refine ⟨?_, by decide⟩
  rw [redis_get_after_set ⟨[]⟩ "k" (.pstr ['5']) 60 0 1 (by norm_num)]
  decide

/-- C6 (amended): with the backend available, within the TTL, and with
the stored bytes in the UTF-8 regime of `json.detect_encoding`, a read
after a write returns exactly the value written when the value is not
a string (a record with distinct dictionary keys, as every Python
object has, round-trips through `json.dumps`/`json.loads`) or is a
non-empty string on which `json.loads` raises; a string that parses as
a JSON document of the modeled fragment is returned as the parsed
value instead, and the empty string is stored as zero bytes, which the
read treats as a miss. -/
theorem C6_roundtrip_amended (srv : RedisServer) (key : String) (value : PyVal)
    (ttl : Int) (t t' : ℚ) (h : t' < t + (ttl : ℚ))
    (hdet : detectsUtf8 (encodeForRedis value) = true) :
    ((∀ s, value ≠ .pstr s) → wfVal value = true →
      RedisCache.get (some ()) (RedisCache.set (some ()) srv key value ttl t .ok).2
        key t' .ok = some (.known value)) ∧
    (∀ s, value = .pstr s → s ≠ [] → pyLoads s = none →
      RedisCache.get (some ()) (RedisCache.set (some ()) srv key value ttl t .ok).2
        key t' .ok = some (.known (.pstr s))) ∧
    (∀ s w, value = .pstr s → pyLoads s = some (some w) →
      RedisCache.get (some ()) (RedisCache.set (some ()) srv key value ttl t .ok).2
        key t' .ok = some (.known w)) ∧
    (value = .pstr [] →
      RedisCache.get (some ()) (RedisCache.set (some ()) srv key value ttl t .ok).2
        key t' .ok = none) := by
  refine ⟨?_, ?_, ?_, ?_⟩
  · intro hv hwf
    have he : encodeForRedis value = utf8Encode (dumps value) :=
      encodeForRedis_not_pstr value hv
    have hne : encodeForRedis value ≠ [] := by
      rw [he]
      obtain ⟨c, cs, hd, -, -, -⟩ := dumps_head value
      rw [hd]
      exact utf8Encode_ne_nil c cs
    rw [redis_get_after_set srv key value ttl t t' h, if_pos hne, he,
      redisParse_dumps value hwf]
  · intro s hv hne0 hparse
    subst hv
    have hne : encodeForRedis (.pstr s) ≠ [] := by
      show utf8Encode s ≠ []
      cases s with
      | nil => exact absurd rfl hne0
      | cons c cs => exact utf8Encode_ne_nil c cs
    rw [redis_get_after_set srv key (.pstr s) ttl t t' h, if_pos hne]
    exact redisParse_str s hparse
  · intro s w hv hparse
    subst hv
    have hne0 : s ≠ [] := by
      intro h0
      rw [h0, show pyLoads ([] : PyStr) = none from by decide] at hparse
      exact Option.noConfusion hparse
    have hne : encodeForRedis (.pstr s) ≠ [] := by
      show utf8Encode s ≠ []
      cases s with
      | nil => exact absurd rfl hne0
      | cons c cs => exact utf8Encode_ne_nil c cs
    rw [redis_get_after_set srv key (.pstr s) ttl t t' h, if_pos hne]
    show redisParse (utf8Encode s) = some (.known w)
    unfold redisParse
    rw [utf8Decode_encode]
    dsimp only
    rw [hparse]
  · intro hv
    subst hv
    rw [redis_get_after_set srv key (.pstr []) ttl t t' h,
      if_neg (by decide : ¬(encodeForRedis (.pstr []) ≠ []))]

/-- Witness for C6 (amended) at time `1` of entries written at time `0`
with TTL `60`: the record `[7]` and the non-JSON string `"ciao"` round-
trip, the JSON-document string `"5"` comes back as the integer `5`, and
the empty string comes back as a miss. -/
theorem C6_roundtrip_amended_witness :
    ((1 : ℚ) < 0 + ((60 : Int) : ℚ) ∧
      RedisCache.get (some ()) (RedisCache.set (some ()) ⟨[]⟩ "k"
          (.plist (.cons (.pint 7) .nil)) 60 0 .ok).2 "k" 1 .ok
        = some (.known (.plist (.cons (.pint 7) .nil)))) ∧
    RedisCache.get (some ()) (RedisCache.set (some ()) ⟨[]⟩ "k"
        (.pstr "ciao".data) 60 0 .ok).2 "k" 1 .ok
      = some (.known (.pstr "ciao".data)) ∧
    RedisCache.get (some ()) (RedisCache.set (some ()) ⟨[]⟩ "k"
        (.pstr ['5']) 60 0 .ok).2 "k" 1 .ok = some (.known (.pint 5)) ∧
    RedisCache.get (some ()) (RedisCache.set (some ()) ⟨[]⟩ "k"
        (.pstr []) 60 0 .ok).2 "k" 1 .ok = none := by
  have h : (1 : ℚ) < 0 + ((60 : Int) : ℚ) := by norm_num
  refine ⟨⟨h, ?_⟩, ?_, ?_, ?_⟩
  · exact (C6_roundtrip_amended ⟨[]⟩ "k" (.plist (.cons (.pint 7) .nil)) 60 0 1 h
      (by decide)).1 (fun s hs => PyVal.noConfusion hs) (by decide)
  · exact (C6_roundtrip_amended ⟨[]⟩ "k" (.pstr "ciao".data) 60 0 1 h (by decide)).2.1
      "ciao".data rfl (by decide) (by decide)
  · exact (C6_roundtrip_amended ⟨[]⟩ "k" (.pstr ['5']) 60 0 1 h (by decide)).2.2.1
      ['5'] (.pint 5) rfl (by decide)
  · exact (C6_roundtrip_amended ⟨[]⟩ "k" (.pstr []) 60 0 1 h (by decide)).2.2.2 rfl

end NearYou
